import Mathlib

/-
Verification of the eatr controller (controller.go, config.go) against its
specification.  The controller reconciles AWS ECR image pull secrets across
Kubernetes namespaces.  We shallowly embed the reconciliation logic:

  * Go maps (namespace labels, secret data, the auth-token map) become
    association lists `List (String × String)`; Go map keys are unique, and
    every property proved below is insensitive to iteration order.
  * The Kubernetes client interface `k8sInterface` becomes a record `KSt σ`
    of state-passing functions over an abstract cluster state `σ`; the
    production accessor semantics (get/create/update with a distinguishable
    not-found error kind) are realised by the concrete instance `clusterK`
    over a `Cluster` value.
  * `ecrInterface.GetAuthToken` becomes a function
    `String → String → String → Except Err AuthData` (region, id, secret).
  * The two prometheus counters become data returned by the reconciliation:
    a list of (namespace, name) increment events for secrets_created_total
    and a 0/1 increment for secret_renewals_total.
  * Errors are `Err`, keeping the not-found kind distinguishable
    (k8serr.IsNotFound); pkg/errors.Wrap becomes `Err.wrap`, which keeps the
    kind and prefixes a message.
  * Side effects persist on abort: the reconciliation returns its final
    state together with an optional error, mirroring that on-cluster writes
    made before an abort remain in place.
-/

namespace Eatr

/-- Error kinds of the embedded Kubernetes/AWS calls.  `notFound` is the
distinguishable not-found kind checked by k8serr.IsNotFound. -/
inductive Err where
  | notFound (msg : String)
  | other (msg : String)
deriving DecidableEq, Repr

/-- k8serr.IsNotFound. -/
def Err.isNotFound : Err → Bool
  | .notFound _ => true
  | .other _ => false

/-- errors.Wrap / errors.Wrapf: prefix a message, keep the error kind. -/
def Err.wrap (w : String) : Err → Err
  | .notFound m => .notFound (w ++ ": " ++ m)
  | .other m => .other (w ++ ": " ++ m)

/-- ecr.AuthorizationData, restricted to the two fields the controller
reads (ExpiresAt is never consulted). -/
structure AuthData where
  authorizationToken : String
  proxyEndpoint : String
deriving DecidableEq, Repr

/-- corev1.Namespace, restricted to the fields the controller reads.
`labels` models the Go map ns.Labels as an association list. -/
structure Namespace where
  name : String
  labels : List (String × String)
  phase : String
  resourceVersion : String
deriving DecidableEq, Repr

/-- corev1.NamespaceActive. -/
def namespaceActive : String := "Active"

/-- corev1.Secret, restricted to the fields the controller uses.  `ns` is
ObjectMeta.Namespace, `data` models the Go map Data (values read as UTF-8
strings). -/
structure Secret where
  name : String
  ns : String
  secType : String
  data : List (String × String)
deriving DecidableEq, Repr

/-- corev1.SecretTypeDockerConfigJson. -/
def secretTypeDockerConfigJson : String := "kubernetes.io/dockerconfigjson"

/-- corev1.DockerConfigJsonKey. -/
def dockerConfigJsonKey : String := ".dockerconfigjson"

/-- The reserved all-namespaces sentinel queue key (const allNamespacesKey). -/
def allNamespacesKey : String := "**all-ns**"

/-- config, restricted to the two fields the reconciliation reads.
`AWSCredentialsSecretPfx` embeds the Go field AWSCredentialsSecretPrefix
(shortened name only to satisfy lexical restrictions of this development). -/
structure Config where
  AWSCredentialsSecretPfx : String
  HostNamespace : String
deriving DecidableEq, Repr

/-- Name of the AWS credentials secret for registry key `n`:
c.Config.AWSCredentialsSecretPrefix + "-" + secretName. -/
def credsSecretName (cfg : Config) (n : String) : String :=
  cfg.AWSCredentialsSecretPfx ++ "-" ++ n

/- ----------------------------------------------------------------------
The namespace secret label key pattern:
  `^(?P<AccountId>\d{12})\.dkr\.ecr\.(?P<Region>\w{2}-\w+-\d)\.amazonaws\.com$`
matched with regexp.MatchString.  Since `\w` = [0-9A-Za-z_] contains
neither `.` nor `-`, the regular expression is unambiguous and whole-string
matching is decided by the deterministic parser below.
---------------------------------------------------------------------- -/

/-- Go regexp `\w` (ASCII word character). -/
def isWordChar (c : Char) : Bool := c.isAlphanum || c = '_'

/-- Consume exactly `n` characters matching `\d`. -/
def dropDigits : Nat → List Char → Option (List Char)
  | 0, cs => some cs
  | _ + 1, [] => none
  | n + 1, c :: cs => if c.isDigit then dropDigits n cs else none

/-- Consume the literal character list `lit`. -/
def dropLit : List Char → List Char → Option (List Char)
  | [], cs => some cs
  | _ :: _, [] => none
  | l :: ls, c :: cs => if c = l then dropLit ls cs else none

/-- Match `(?P<Region>\w{2}-\w+-\d)\.amazonaws\.com` against the whole
remaining input. -/
def matchRegionTail (cs : List Char) : Bool :=
  match cs with
  | c1 :: c2 :: c3 :: rest =>
    if isWordChar c1 && isWordChar c2 && c3 = '-' then
      if (rest.takeWhile isWordChar).isEmpty then false
      else
        match rest.dropWhile isWordChar with
        | d1 :: d :: rest3 =>
          d1 = '-' && d.isDigit && dropLit ".amazonaws.com".data rest3 = some []
        | _ => false
    else false
  | _ => false

/-- namespaceSecretLabelKeyRegEx.MatchString: whole-string match of
`^\d{12}\.dkr\.ecr\.\w{2}-\w+-\d\.amazonaws\.com$`. -/
def labelKeyMatch (s : String) : Bool :=
  match dropDigits 12 s.data with
  | none => false
  | some r1 =>
    match dropLit ".dkr.ecr.".data r1 with
    | none => false
    | some r2 => matchRegionTail r2

/-- The per-label selection test used throughout controller.go:
`namespaceSecretLabelKeyRegEx.MatchString(k) && v == "true"`. -/
def labelSelected (k v : String) : Bool := labelKeyMatch k && v == "true"

/-- A namespace survives the filter in getNamespacesToProcess: Phase is
Active and some label key matches the pattern with value "true". -/
def nsIsCandidate (ns : Namespace) : Bool :=
  ns.phase == namespaceActive && ns.labels.any (fun kv => labelSelected kv.1 kv.2)

/-- Read a key from a secret Data map: `string(sec.Data[k])`, the empty
string when the key is absent (Go nil byte slice decodes to ""). -/
def lookupData (d : List (String × String)) (k : String) : String :=
  match d.find? (fun kv => kv.1 == k) with
  | some kv => kv.2
  | none => ""

/-- Lookup in the authTokenData map (`authToken, ok := authTokenData[k]`). -/
def lookupAuth (m : List (String × AuthData)) (k : String) : Option AuthData :=
  (m.find? (fun e => e.1 == k)).map (fun e => e.2)

/- ----------------------------------------------------------------------
The k8sInterface, over an abstract cluster state σ.  Getters read the
state; create/update return the written object and the new state.
---------------------------------------------------------------------- -/

/-- k8sInterface: the subset of the Kubernetes client the controller uses,
as state-passing functions over an abstract cluster state. -/
structure KSt (σ : Type) where
  getNamespace : σ → String → Except Err Namespace
  getNamespaces : σ → Except Err (List Namespace)
  getSecret : σ → String → String → Except Err Secret
  createSecret : σ → String → Secret → Except Err (Secret × σ)
  updateSecret : σ → String → Secret → Except Err (Secret × σ)

/-- controller.getNamespacesToProcess: list all namespaces for the
sentinel key, else get the one named namespace; then retain namespaces
with Phase Active carrying a matching label with value "true". -/
def getNamespacesToProcess {σ : Type} (K : KSt σ) (st : σ) (key : String) :
    Except Err (List Namespace) :=
  match (if key = allNamespacesKey then
           match K.getNamespaces st with
           | .error e => .error (e.wrap "get namespaces failed")
           | .ok nss => .ok nss
         else
           match K.getNamespace st key with
           | .error e => .error (e.wrap ("get namespace [" ++ key ++ "] failed"))
           | .ok ns => .ok [ns] : Except Err (List Namespace)) with
  | .error e => .error e
  | .ok items => .ok (items.filter nsIsCandidate)

/-- Insert into a sorted duplicate-free list of strings (the behaviour of
sets.String.Insert followed by List, which returns the sorted key set). -/
def insertName (x : String) : List String → List String
  | [] => [x]
  | y :: ys => if x = y then y :: ys else if x < y then x :: y :: ys else y :: insertName x ys

/-- All label keys selected across the namespaces, in iteration order
(before deduplication). -/
def collectSelectedNames (nss : List Namespace) : List String :=
  nss.flatMap (fun ns => (ns.labels.filter (fun kv => labelSelected kv.1 kv.2)).map Prod.fst)

/-- controller.getDistinctSecretNames: the distinct label keys matching
the pattern with value "true", as the sorted list sets.String.List
returns. -/
def getDistinctSecretNames (nss : List Namespace) : List String :=
  (collectSelectedNames nss).foldl (fun acc x => insertName x acc) []

/-- controller.createECRAuthTokenData: for each secret name, read the AWS
credentials secret from the host namespace (skipping on not-found),
extract aws_region / aws_access_key_id / aws_secret_access_key, and fetch
an ECR authorization token; any non-not-found error aborts.  `getSec` is
the (read-only) GetSecret operation and `ecrFn` is ECR.GetAuthToken. -/
def createECRAuthTokenData (getSec : String → String → Except Err Secret)
    (ecrFn : String → String → String → Except Err AuthData) (cfg : Config) :
    List String → Except Err (List (String × AuthData))
  | [] => .ok []
  | n :: rest =>
    match getSec cfg.HostNamespace (credsSecretName cfg n) with
    | .error e =>
      if e.isNotFound then
        createECRAuthTokenData getSec ecrFn cfg rest
      else
        .error (e.wrap ("get namespace [" ++ cfg.HostNamespace ++
          "] AWS credentials secret [" ++ credsSecretName cfg n ++ "] failed"))
    | .ok sec =>
      match ecrFn (lookupData sec.data "aws_region") (lookupData sec.data "aws_access_key_id")
          (lookupData sec.data "aws_secret_access_key") with
      | .error e =>
        .error (e.wrap ("get ECR authorization token failed for region [" ++
          lookupData sec.data "aws_region" ++ "] and access key id [" ++
          lookupData sec.data "aws_access_key_id" ++ "]"))
      | .ok tok =>
        match createECRAuthTokenData getSec ecrFn cfg rest with
        | .error e => .error e
        | .ok m => .ok ((n, tok) :: m)

/-- fmt.Sprintf(secretDataTemplate, endpoint, password) with
secretDataTemplate = `\x7b "auths": \x7b "%s": \x7b "auth": "%s" \x7d \x7d \x7d`. -/
def secretDataJson (endpoint password : String) : String :=
  "\x7b \"auths\": \x7b \"" ++ endpoint ++ "\": \x7b \"auth\": \"" ++ password ++
    "\" \x7d \x7d \x7d"

/-- The secret object built by controller.createNamespaceSecret: only
ObjectMeta.Name is set, the type is docker-config-json and the data map
has the single docker-config-json key. -/
def mkPullSecretObj (secretName : String) (tok : AuthData) : Secret :=
  { name := secretName
    ns := ""
    secType := secretTypeDockerConfigJson
    data := [(dockerConfigJsonKey, secretDataJson tok.proxyEndpoint tok.authorizationToken)] }

/-- controller.createNamespaceSecret: build the docker-config-json secret,
then GetSecret; on any error CreateSecret, otherwise UpdateSecret.  The
state is returned unchanged when the write call fails. -/
def createNamespaceSecret {σ : Type} (K : KSt σ) (st : σ) (nsName secretName : String)
    (tok : AuthData) : σ × Option Err :=
  let secret := mkPullSecretObj secretName tok
  match K.getSecret st nsName secretName with
  | .error _ =>
    match K.createSecret st nsName secret with
    | .ok r => (r.2, none)
    | .error e => (st, some (e.wrap ("create or update of namespace [" ++ nsName ++
        "] secret [" ++ secretName ++ "] failed")))
  | .ok _ =>
    match K.updateSecret st nsName secret with
    | .ok r => (r.2, none)
    | .error e => (st, some (e.wrap ("create or update of namespace [" ++ nsName ++
        "] secret [" ++ secretName ++ "] failed")))

/-- The inner loop of renewECRImagePullSecrets over the labels of one
namespace: write a pull secret for every label matching the pattern with
value "true" that has an authorization token; record a
secrets_created_total increment after each successful write; abort on the
first write error, keeping the state reached so far. -/
def processLabels {σ : Type} (K : KSt σ) (m : List (String × AuthData)) (nsName : String) :
    List (String × String) → σ → σ × List (String × String) × Option Err
  | [], st => (st, [], none)
  | (lk, lv) :: rest, st =>
    if labelKeyMatch lk && lv == "true" then
      match lookupAuth m lk with
      | some tok =>
        match createNamespaceSecret K st nsName lk tok with
        | (st1, some e) =>
          (st1, [], some (e.wrap ("create namespace [" ++ nsName ++ "] secret [" ++
            lk ++ "] failed")))
        | (st1, none) =>
          match processLabels K m nsName rest st1 with
          | (st2, incs, err) => (st2, (nsName, lk) :: incs, err)
      | none => processLabels K m nsName rest st
    else processLabels K m nsName rest st

/-- The outer loop of renewECRImagePullSecrets over the candidate
namespaces. -/
def processNamespaces {σ : Type} (K : KSt σ) (m : List (String × AuthData)) :
    List Namespace → σ → σ × List (String × String) × Option Err
  | [], st => (st, [], none)
  | ns :: rest, st =>
    match processLabels K m ns.name ns.labels st with
    | (st1, incs, some e) => (st1, incs, some e)
    | (st1, incs, none) =>
      match processNamespaces K m rest st1 with
      | (st2, incs2, err) => (st2, incs ++ incs2, err)

/-- Outcome of one renewECRImagePullSecrets call: final cluster state,
secrets_created_total increment events in order, the secret_renewals_total
increment, and the returned error (none on success). -/
structure RenewResult (σ : Type) where
  st : σ
  secretsIncs : List (String × String)
  renewalsInc : Nat
  err : Option Err
deriving DecidableEq

/-- controller.renewECRImagePullSecrets. -/
def renewECRImagePullSecrets {σ : Type} (K : KSt σ)
    (ecrFn : String → String → String → Except Err AuthData) (cfg : Config)
    (key : String) (st : σ) : RenewResult σ :=
  match getNamespacesToProcess K st key with
  | .error e => ⟨st, [], 0, some (e.wrap "get namespaces to process failed")⟩
  | .ok nss =>
    if nss.isEmpty then ⟨st, [], 0, none⟩
    else
      match createECRAuthTokenData (K.getSecret st) ecrFn cfg (getDistinctSecretNames nss) with
      | .error e => ⟨st, [], 0, some (e.wrap "create ECR authorization tokens failed")⟩
      | .ok m =>
        if m.isEmpty then ⟨st, [], 0, none⟩
        else
          match processNamespaces K m nss st with
          | (st1, incs, some e) => ⟨st1, incs, 0, some e⟩
          | (st1, incs, none) =>
            ⟨st1, incs, if key = allNamespacesKey then 1 else 0, none⟩

/-- The UpdateFunc namespace event handler registered in newController:
enqueue newObj.Name exactly when the resource versions differ.  The work
queue is modelled as the list of added keys. -/
def onNamespaceUpdate (oldNS newNS : Namespace) (queue : List String) : List String :=
  if oldNS.resourceVersion ≠ newNS.resourceVersion then queue ++ [newNS.name] else queue

/-- One iteration of controller.runQueueConsumerLoop: take the head key,
run the reconciliation, log and swallow any error, and mark the key done
without re-enqueueing it. -/
def runQueueConsumerStep {σ : Type} (K : KSt σ)
    (ecrFn : String → String → String → Except Err AuthData) (cfg : Config)
    (st : σ) (queue : List String) : σ × List String :=
  match queue with
  | [] => (st, [])
  | key :: rest => ((renewECRImagePullSecrets K ecrFn cfg key st).st, rest)

/- ----------------------------------------------------------------------
The concrete cluster: the accessor contract of k8s.go (typed get / create
/ update with not-found distinguishable, namespace assigned on write).
---------------------------------------------------------------------- -/

/-- On-cluster state: the namespace objects and the secret objects. -/
structure Cluster where
  namespaces : List Namespace
  secrets : List Secret
deriving DecidableEq, Repr

/-- Find a namespace object by name. -/
def findNS (l : List Namespace) (name : String) : Option Namespace :=
  l.find? (fun x => x.name == name)

/-- Find a secret object by namespace and name. -/
def findSec (l : List Secret) (n k : String) : Option Secret :=
  l.find? (fun s => s.ns == n && s.name == k)

/-- Replace every secret object keyed (n, k) by s1. -/
def replaceSec (l : List Secret) (n k : String) (s1 : Secret) : List Secret :=
  l.map (fun t => if t.ns == n && t.name == k then s1 else t)

/-- The k8sClient of k8s.go over a Cluster value: gets return the stored
object or a not-found error; create appends (failing when the name
exists); update overwrites (failing with not-found when absent); the
server sets the namespace field of a written secret. -/
def clusterK : KSt Cluster where
  getNamespace := fun c name =>
    match findNS c.namespaces name with
    | some ns => .ok ns
    | none => .error (.notFound ("namespaces \"" ++ name ++ "\" not found"))
  getNamespaces := fun c => .ok c.namespaces
  getSecret := fun c ns name =>
    match findSec c.secrets ns name with
    | some s => .ok s
    | none => .error (.notFound ("secrets \"" ++ name ++ "\" not found"))
  createSecret := fun c ns s =>
    match findSec c.secrets ns s.name with
    | some _ => .error (.other ("secrets \"" ++ s.name ++ "\" already exists"))
    | none => .ok ({ s with ns := ns }, { c with secrets := c.secrets ++ [{ s with ns := ns }] })
  updateSecret := fun c ns s =>
    match findSec c.secrets ns s.name with
    | some _ => .ok ({ s with ns := ns },
        { c with secrets := replaceSec c.secrets ns s.name { s with ns := ns } })
    | none => .error (.notFound ("secrets \"" ++ s.name ++ "\" not found"))

/-- The pull secret object as it ends up stored in namespace n. -/
def mkPull (n k : String) (tok : AuthData) : Secret :=
  { name := k
    ns := n
    secType := secretTypeDockerConfigJson
    data := [(dockerConfigJsonKey, secretDataJson tok.proxyEndpoint tok.authorizationToken)] }

/- ----------------------------------------------------------------------
Helper lemmas: distinct secret names.
---------------------------------------------------------------------- -/

theorem mem_insertName (x y : String) (l : List String) :
    x ∈ insertName y l ↔ x = y ∨ x ∈ l := by
  induction l with
  | nil => simp [insertName]
  | cons z zs ih =>
    by_cases hzy : y = z
    · subst hzy
      have hrw : insertName y (y :: zs) = y :: zs := by
        unfold insertName
        rw [if_pos rfl]
      rw [hrw]
      simp only [List.mem_cons]
      tauto
    · by_cases hlt : y < z
      · simp [insertName, hzy, hlt]
      · simp only [insertName, if_neg hzy, if_neg hlt, List.mem_cons, ih]
        tauto

theorem mem_foldl_insertName (x : String) (l acc : List String) :
    x ∈ l.foldl (fun a y => insertName y a) acc ↔ x ∈ acc ∨ x ∈ l := by
  induction l generalizing acc with
  | nil => simp
  | cons z zs ih =>
    simp only [List.foldl_cons, ih, mem_insertName, List.mem_cons]
    tauto

theorem mem_getDistinctSecretNames (x : String) (nss : List Namespace) :
    x ∈ getDistinctSecretNames nss ↔ x ∈ collectSelectedNames nss := by
  unfold getDistinctSecretNames
  rw [mem_foldl_insertName]
  simp

theorem mem_collectSelectedNames (x : String) (nss : List Namespace) :
    x ∈ collectSelectedNames nss ↔
      ∃ ns ∈ nss, ∃ v, (x, v) ∈ ns.labels ∧ labelSelected x v = true := by
  unfold collectSelectedNames
  simp only [List.mem_flatMap, List.mem_map, List.mem_filter]
  constructor
  · rintro ⟨ns, hns, kv, ⟨hmem, hsel⟩, hfst⟩
    exact ⟨ns, hns, kv.2, by simpa [← hfst] using hmem, by simpa [← hfst] using hsel⟩
  · rintro ⟨ns, hns, v, hmem, hsel⟩
    exact ⟨ns, hns, (x, v), ⟨hmem, hsel⟩, rfl⟩

theorem labelKeyMatch_of_mem_getDistinctSecretNames (x : String) (nss : List Namespace)
    (h : x ∈ getDistinctSecretNames nss) : labelKeyMatch x = true := by
  rw [mem_getDistinctSecretNames, mem_collectSelectedNames] at h
  obtain ⟨ns, _, v, _, hsel⟩ := h
  simp only [labelSelected, Bool.and_eq_true] at hsel
  exact hsel.1

/- ----------------------------------------------------------------------
Helper lemmas: findSec / replaceSec.
---------------------------------------------------------------------- -/

theorem secMatch_true {t : Secret} {n k : String} (h1 : t.ns = n) (h2 : t.name = k) :
    (t.ns == n && t.name == k) = true := by
  simp [h1, h2]

theorem secMatch_false {t : Secret} {n k : String} (h : ¬(t.ns = n ∧ t.name = k)) :
    (t.ns == n && t.name == k) = false := by
  cases hb : (t.ns == n && t.name == k) with
  | false => rfl
  | true => exact absurd (by simpa using hb) h

theorem secMatch_elim {t : Secret} {n k : String}
    (h : (t.ns == n && t.name == k) = true) : t.ns = n ∧ t.name = k := by
  simpa using h

theorem findSec_eq_none_iff (l : List Secret) (n k : String) :
    findSec l n k = none ↔ ∀ t ∈ l, ¬(t.ns = n ∧ t.name = k) := by
  unfold findSec
  rw [List.find?_eq_none]
  constructor
  · intro h t ht hc
    exact h t ht (secMatch_true hc.1 hc.2)
  · intro h t ht hc
    exact h t ht (secMatch_elim hc)

theorem findSec_cons_pos (t : Secret) (ts : List Secret) (n k : String)
    (h : t.ns = n ∧ t.name = k) : findSec (t :: ts) n k = some t := by
  unfold findSec
  exact List.find?_cons_of_pos _ (secMatch_true h.1 h.2)

theorem findSec_cons_neg (t : Secret) (ts : List Secret) (n k : String)
    (h : ¬(t.ns = n ∧ t.name = k)) : findSec (t :: ts) n k = findSec ts n k := by
  unfold findSec
  exact List.find?_cons_of_neg _ (by simp [secMatch_false h])

theorem findSec_append_one (l : List Secret) (s1 : Secret) (n k : String) :
    findSec (l ++ [s1]) n k =
      match findSec l n k with
      | some t => some t
      | none => if s1.ns = n ∧ s1.name = k then some s1 else none := by
  induction l with
  | nil =>
    by_cases h : s1.ns = n ∧ s1.name = k
    · simp only [List.nil_append, findSec_cons_pos s1 [] n k h]
      simp [findSec, h]
    · simp only [List.nil_append, findSec_cons_neg s1 [] n k h]
      simp [findSec, h]
  | cons t ts ih =>
    by_cases ht : t.ns = n ∧ t.name = k
    · rw [List.cons_append, findSec_cons_pos t (ts ++ [s1]) n k ht,
        findSec_cons_pos t ts n k ht]
    · rw [List.cons_append, findSec_cons_neg t (ts ++ [s1]) n k ht,
        findSec_cons_neg t ts n k ht, ih]

theorem replaceSec_cons (t : Secret) (ts : List Secret) (n k : String) (s1 : Secret) :
    replaceSec (t :: ts) n k s1 =
      (if t.ns == n && t.name == k then s1 else t) :: replaceSec ts n k s1 := rfl

theorem findSec_replace_other (l : List Secret) (n1 k1 n k : String) (s1 : Secret)
    (hs1 : s1.ns = n1 ∧ s1.name = k1) (hne : ¬(n = n1 ∧ k = k1)) :
    findSec (replaceSec l n1 k1 s1) n k = findSec l n k := by
  have hs1not : ¬(s1.ns = n ∧ s1.name = k) := by
    rintro ⟨ha, hb⟩
    exact hne ⟨ha ▸ hs1.1.symm ▸ rfl, hb ▸ hs1.2.symm ▸ rfl⟩
  induction l with
  | nil => simp [replaceSec]
  | cons t ts ih =>
    rw [replaceSec_cons]
    by_cases h1 : t.ns = n1 ∧ t.name = k1
    · have htnot : ¬(t.ns = n ∧ t.name = k) := by
        rintro ⟨ha, hb⟩
        exact hne ⟨ha ▸ h1.1.symm ▸ rfl, hb ▸ h1.2.symm ▸ rfl⟩
      rw [if_pos (secMatch_true h1.1 h1.2), findSec_cons_neg s1 _ n k hs1not,
        findSec_cons_neg t ts n k htnot, ih]
    · rw [if_neg (by simp [secMatch_false h1])]
      by_cases h2 : t.ns = n ∧ t.name = k
      · rw [findSec_cons_pos t _ n k h2, findSec_cons_pos t ts n k h2]
      · rw [findSec_cons_neg t _ n k h2, findSec_cons_neg t ts n k h2, ih]

/-- The write postcondition: some secret object keyed (n, k) is stored,
and every stored secret object keyed (n, k) equals s1. -/
def writtenOK (l : List Secret) (n k : String) (s1 : Secret) : Prop :=
  (∃ t ∈ l, t.ns = n ∧ t.name = k) ∧ ∀ t ∈ l, t.ns = n → t.name = k → t = s1

theorem findSec_of_writtenOK {l : List Secret} {n k : String} {s1 : Secret}
    (h : writtenOK l n k s1) : findSec l n k = some s1 := by
  obtain ⟨⟨t0, ht0, hm0⟩, hall⟩ := h
  induction l with
  | nil => cases ht0
  | cons t ts ih =>
    by_cases hm : t.ns = n ∧ t.name = k
    · rw [findSec_cons_pos t ts n k hm, hall t (by simp) hm.1 hm.2]
    · rw [findSec_cons_neg t ts n k hm]
      rcases List.mem_cons.mp ht0 with h0 | h0
      · exact absurd (h0 ▸ hm0) hm
      · exact ih (fun u hu => hall u (List.mem_cons_of_mem t hu)) h0

theorem writtenOK_append_of_none {l : List Secret} {n k : String} {s1 : Secret}
    (hn : findSec l n k = none) (hs1 : s1.ns = n ∧ s1.name = k) :
    writtenOK (l ++ [s1]) n k s1 := by
  have hnone := (findSec_eq_none_iff l n k).mp hn
  constructor
  · exact ⟨s1, by simp, hs1⟩
  · intro t ht ha hb
    rcases List.mem_append.mp ht with h0 | h0
    · exact absurd ⟨ha, hb⟩ (hnone t h0)
    · simpa using h0

theorem writtenOK_replace_self {l : List Secret} {n k : String} {s1 : Secret}
    (hex : ∃ t ∈ l, t.ns = n ∧ t.name = k) (hs1 : s1.ns = n ∧ s1.name = k) :
    writtenOK (replaceSec l n k s1) n k s1 := by
  constructor
  · obtain ⟨t0, ht0, hm0⟩ := hex
    refine ⟨s1, ?_, hs1⟩
    refine List.mem_map.mpr ⟨t0, ht0, ?_⟩
    rw [if_pos (secMatch_true hm0.1 hm0.2)]
  · intro t ht ha hb
    rcases List.mem_map.mp ht with ⟨u, hu, hut⟩
    by_cases hm : u.ns = n ∧ u.name = k
    · rw [if_pos (secMatch_true hm.1 hm.2)] at hut
      exact hut.symm
    · rw [if_neg (by simp [secMatch_false hm])] at hut
      exact absurd ⟨hut ▸ ha, hut ▸ hb⟩ hm

theorem writtenOK_append_other {l : List Secret} {n k : String} {s1 s2 : Secret}
    (h : writtenOK l n k s1) (hs2 : ¬(s2.ns = n ∧ s2.name = k)) :
    writtenOK (l ++ [s2]) n k s1 := by
  obtain ⟨⟨t0, ht0, hm0⟩, hall⟩ := h
  refine ⟨⟨t0, by simp [ht0], hm0⟩, ?_⟩
  intro t ht ha hb
  rcases List.mem_append.mp ht with h0 | h0
  · exact hall t h0 ha hb
  · have : t = s2 := by simpa using h0
    exact absurd ⟨this ▸ ha, this ▸ hb⟩ hs2

theorem writtenOK_replace_other {l : List Secret} {n k n1 k1 : String} {s1 s2 : Secret}
    (h : writtenOK l n k s1) (hs2 : s2.ns = n1 ∧ s2.name = k1)
    (hne : ¬(n = n1 ∧ k = k1)) : writtenOK (replaceSec l n1 k1 s2) n k s1 := by
  obtain ⟨⟨t0, ht0, hm0⟩, hall⟩ := h
  have ht0ne : ¬(t0.ns = n1 ∧ t0.name = k1) := by
    rintro ⟨ha, hb⟩
    exact hne ⟨hm0.1 ▸ ha ▸ rfl, hm0.2 ▸ hb ▸ rfl⟩
  constructor
  · refine ⟨t0, ?_, hm0⟩
    refine List.mem_map.mpr ⟨t0, ht0, ?_⟩
    rw [if_neg (by simp [secMatch_false ht0ne])]
  · intro t ht ha hb
    rcases List.mem_map.mp ht with ⟨u, hu, hut⟩
    by_cases hm : u.ns = n1 ∧ u.name = k1
    · rw [if_pos (secMatch_true hm.1 hm.2)] at hut
      have hn1 : n = n1 := by rw [← ha, ← hut, hs2.1]
      have hk1 : k = k1 := by rw [← hb, ← hut, hs2.2]
      exact absurd ⟨hn1, hk1⟩ hne
    · rw [if_neg (by simp [secMatch_false hm])] at hut
      have hres := hall u hu (by rw [hut]; exact ha) (by rw [hut]; exact hb)
      exact hut ▸ hres

theorem replaceSec_eq_self (l : List Secret) (n k : String) (s1 : Secret)
    (h : ∀ t ∈ l, t.ns = n → t.name = k → t = s1) : replaceSec l n k s1 = l := by
  induction l with
  | nil => rfl
  | cons t ts ih =>
    rw [replaceSec_cons]
    by_cases h1 : t.ns = n ∧ t.name = k
    · rw [if_pos (secMatch_true h1.1 h1.2), ih (fun u hu => h u (by simp [hu])),
        h t (by simp) h1.1 h1.2]
    · rw [if_neg (by simp [secMatch_false h1])]
      exact congrArg (t :: ·) (ih (fun u hu => h u (by simp [hu])))

/- ----------------------------------------------------------------------
Helper lemmas: createNamespaceSecret over the concrete cluster.
---------------------------------------------------------------------- -/

theorem withNs_mkPullSecretObj (n k : String) (tok : AuthData) :
    { mkPullSecretObj k tok with ns := n } = mkPull n k tok := rfl

theorem mkPullSecretObj_name (k : String) (tok : AuthData) :
    (mkPullSecretObj k tok).name = k := rfl

theorem findSec_exists_of_some {l : List Secret} {n k : String} {s0 : Secret}
    (h : findSec l n k = some s0) : s0 ∈ l ∧ s0.ns = n ∧ s0.name = k := by
  unfold findSec at h
  have h1 : s0 ∈ l := List.mem_of_find?_eq_some h
  have h2 := List.find?_some h
  exact ⟨h1, secMatch_elim h2⟩

/-- Effect of one createNamespaceSecret call over the concrete cluster:
it always succeeds; it leaves the namespaces untouched; afterwards the
target (n, k) slot stores exactly the pull secret; every other slot is
untouched and keeps its write postcondition. -/
theorem cns_cluster (c : Cluster) (n k : String) (tok : AuthData) :
    ∃ c1 : Cluster,
      createNamespaceSecret clusterK c n k tok = (c1, none) ∧
      c1.namespaces = c.namespaces ∧
      writtenOK c1.secrets n k (mkPull n k tok) ∧
      (∀ n1 k1, ¬(n1 = n ∧ k1 = k) → findSec c1.secrets n1 k1 = findSec c.secrets n1 k1) ∧
      (∀ n1 k1 s1, ¬(n1 = n ∧ k1 = k) → writtenOK c.secrets n1 k1 s1 →
        writtenOK c1.secrets n1 k1 s1) := by
  cases hfs : findSec c.secrets n k with
  | none =>
    refine ⟨{ c with secrets := c.secrets ++ [mkPull n k tok] }, ?_, rfl, ?_, ?_, ?_⟩
    · unfold createNamespaceSecret clusterK
      simp only [mkPullSecretObj_name, hfs]
      rfl
    · exact writtenOK_append_of_none hfs ⟨rfl, rfl⟩
    · intro n1 k1 hne
      have hcond : ¬((mkPull n k tok).ns = n1 ∧ (mkPull n k tok).name = k1) := by
        rintro ⟨ha, hb⟩
        exact hne ⟨ha ▸ rfl, hb ▸ rfl⟩
      rw [findSec_append_one]
      cases hfs1 : findSec c.secrets n1 k1 with
      | none => simp [hcond]
      | some t => simp
    · intro n1 k1 s1 hne hw
      refine writtenOK_append_other hw ?_
      rintro ⟨ha, hb⟩
      exact hne ⟨ha ▸ rfl, hb ▸ rfl⟩
  | some s0 =>
    refine ⟨{ c with secrets := replaceSec c.secrets n k (mkPull n k tok) }, ?_, rfl, ?_, ?_, ?_⟩
    · unfold createNamespaceSecret clusterK
      simp only [mkPullSecretObj_name, hfs]
      rfl
    · obtain ⟨hmem, hm⟩ := findSec_exists_of_some hfs
      exact writtenOK_replace_self ⟨s0, hmem, hm⟩ ⟨rfl, rfl⟩
    · intro n1 k1 hne
      exact findSec_replace_other _ _ _ _ _ _ ⟨rfl, rfl⟩
        (by rintro ⟨ha, hb⟩; exact hne ⟨ha ▸ rfl, hb ▸ rfl⟩)
    · intro n1 k1 s1 hne hw
      exact writtenOK_replace_other hw ⟨rfl, rfl⟩
        (by rintro ⟨ha, hb⟩; exact hne ⟨ha ▸ rfl, hb ▸ rfl⟩)

/-- A repeated createNamespaceSecret call over the concrete cluster is a
no-op when the target slot already stores exactly the pull secret. -/
theorem cns_cluster_noop (c : Cluster) (n k : String) (tok : AuthData)
    (h : writtenOK c.secrets n k (mkPull n k tok)) :
    createNamespaceSecret clusterK c n k tok = (c, none) := by
  have hfs := findSec_of_writtenOK h
  have hrepl : replaceSec c.secrets n k (mkPull n k tok) = c.secrets :=
    replaceSec_eq_self _ _ _ _ h.2
  unfold createNamespaceSecret clusterK
  simp only [mkPullSecretObj_name, hfs]
  show ({ c with secrets := replaceSec c.secrets n k (mkPull n k tok) }, none) = (c, none)
  rw [hrepl]

/- ----------------------------------------------------------------------
Helper lemmas: the materialization loops over the concrete cluster.
---------------------------------------------------------------------- -/

/-- The (namespace, secret name) pairs written while processing the
labels of one namespace: the labels matching the pattern with value "true"
whose registry key has an authorization token. -/
def labelWrites (m : List (String × AuthData)) (nsName : String)
    (labels : List (String × String)) : List (String × String) :=
  (labels.filter (fun kv => labelSelected kv.1 kv.2 && (lookupAuth m kv.1).isSome)).map
    (fun kv => (nsName, kv.1))

/-- The (namespace, secret name) pairs written over all candidate
namespaces, in iteration order. -/
def writePairs (m : List (String × AuthData)) (nss : List Namespace) :
    List (String × String) :=
  nss.flatMap (fun ns => labelWrites m ns.name ns.labels)

theorem labelWrites_cons_pos {m : List (String × AuthData)} {nsName lk lv : String}
    {rest : List (String × String)}
    (hp : (labelSelected lk lv && (lookupAuth m lk).isSome) = true) :
    labelWrites m nsName ((lk, lv) :: rest) = (nsName, lk) :: labelWrites m nsName rest := by
  simp [labelWrites, List.filter_cons, hp]

theorem labelWrites_cons_neg {m : List (String × AuthData)} {nsName lk lv : String}
    {rest : List (String × String)}
    (hp : (labelSelected lk lv && (lookupAuth m lk).isSome) = false) :
    labelWrites m nsName ((lk, lv) :: rest) = labelWrites m nsName rest := by
  simp [labelWrites, List.filter_cons, hp]

/-- Over the concrete cluster the label loop always succeeds, emits a
secrets_created_total increment exactly per written pair, and does not
touch the namespace objects. -/
theorem procLabels_cluster (m : List (String × AuthData)) (nsName : String) :
    ∀ (labels : List (String × String)) (c : Cluster),
      ∃ c1 : Cluster,
        processLabels clusterK m nsName labels c = (c1, labelWrites m nsName labels, none) ∧
        c1.namespaces = c.namespaces := by
  intro labels
  induction labels with
  | nil => exact fun c => ⟨c, rfl, rfl⟩
  | cons kv rest ih =>
    intro c
    obtain ⟨lk, lv⟩ := kv
    by_cases hsel : (labelKeyMatch lk && lv == "true") = true
    · cases htk : lookupAuth m lk with
      | some tok =>
        obtain ⟨c2, hc2, hns2, _, _, _⟩ := cns_cluster c nsName lk tok
        obtain ⟨c1, h1, hns1⟩ := ih c2
        refine ⟨c1, ?_, hns1.trans hns2⟩
        rw [labelWrites_cons_pos (by simp [labelSelected, hsel, htk])]
        simp [processLabels, hsel, htk, hc2, h1]
      | none =>
        obtain ⟨c1, h1, hns1⟩ := ih c
        refine ⟨c1, ?_, hns1⟩
        rw [labelWrites_cons_neg (by simp [htk])]
        simp [processLabels, hsel, htk, h1]
    · rw [Bool.not_eq_true] at hsel
      obtain ⟨c1, h1, hns1⟩ := ih c
      refine ⟨c1, ?_, hns1⟩
      rw [labelWrites_cons_neg (by simp [labelSelected, hsel])]
      simp [processLabels, hsel, h1]

/-- Over the concrete cluster the namespace loop always succeeds, emits
increments exactly per written pair, and does not touch the namespace
objects. -/
theorem procNS_cluster (m : List (String × AuthData)) :
    ∀ (nss : List Namespace) (c : Cluster),
      ∃ c1 : Cluster,
        processNamespaces clusterK m nss c = (c1, writePairs m nss, none) ∧
        c1.namespaces = c.namespaces := by
  intro nss
  induction nss with
  | nil => exact fun c => ⟨c, rfl, rfl⟩
  | cons ns rest ih =>
    intro c
    obtain ⟨c2, h2, hns2⟩ := procLabels_cluster m ns.name ns.labels c
    obtain ⟨c1, h1, hns1⟩ := ih c2
    refine ⟨c1, ?_, hns1.trans hns2⟩
    have hwp : writePairs m (ns :: rest) =
        labelWrites m ns.name ns.labels ++ writePairs m rest := by
      unfold writePairs
      rw [List.flatMap_cons]
    rw [hwp]
    simp only [processNamespaces, h2, h1]

/-- A slot (n, k) that no processed label justifies is untouched by the
label loop. -/
theorem procLabels_untouched (m : List (String × AuthData)) (nsName : String) :
    ∀ (labels : List (String × String)) (c : Cluster) (n k : String),
      ¬(nsName = n ∧ labelKeyMatch k = true ∧ (k, "true") ∈ labels) →
      findSec (processLabels clusterK m nsName labels c).1.secrets n k =
        findSec c.secrets n k := by
  intro labels
  induction labels with
  | nil => intro c n k _; rfl
  | cons kv rest ih =>
    intro c n k h
    obtain ⟨lk, lv⟩ := kv
    have hrest : ¬(nsName = n ∧ labelKeyMatch k = true ∧ (k, "true") ∈ rest) := by
      rintro ⟨h1, h2, h3⟩
      exact h ⟨h1, h2, List.mem_cons_of_mem _ h3⟩
    by_cases hsel : (labelKeyMatch lk && lv == "true") = true
    · cases htk : lookupAuth m lk with
      | some tok =>
        obtain ⟨c2, hc2, _, _, hunt, _⟩ := cns_cluster c nsName lk tok
        obtain ⟨c1, h1, _⟩ := procLabels_cluster m nsName rest c2
        have hne : ¬(n = nsName ∧ k = lk) := by
          rintro ⟨hn, hk⟩
          simp only [Bool.and_eq_true] at hsel
          have hlv : lv = "true" := by simpa using hsel.2
          exact h ⟨hn.symm, hk ▸ hsel.1, by rw [hk, ← hlv]; exact List.mem_cons_self _ _⟩
        have hchain : findSec c1.secrets n k = findSec c.secrets n k := by
          have hstep := ih c2 n k hrest
          rw [h1] at hstep
          rw [hstep]
          exact hunt n k hne
        simp [processLabels, hsel, htk, hc2, h1, hchain]
      | none =>
        have hres := ih c n k hrest
        simp only [processLabels, hsel, if_true, htk]
        exact hres
    · rw [Bool.not_eq_true] at hsel
      have hres := ih c n k hrest
      simp only [processLabels, hsel, Bool.false_eq_true, if_false]
      exact hres

/-- A slot (n, k) that no processed namespace justifies is untouched by
the namespace loop. -/
theorem procNS_untouched (m : List (String × AuthData)) :
    ∀ (nss : List Namespace) (c : Cluster) (n k : String),
      (∀ ns ∈ nss, ¬(ns.name = n ∧ labelKeyMatch k = true ∧ (k, "true") ∈ ns.labels)) →
      findSec (processNamespaces clusterK m nss c).1.secrets n k =
        findSec c.secrets n k := by
  intro nss
  induction nss with
  | nil => intro c n k _; rfl
  | cons ns rest ih =>
    intro c n k h
    obtain ⟨c2, h2, _⟩ := procLabels_cluster m ns.name ns.labels c
    obtain ⟨c1, h1, _⟩ := procNS_cluster m rest c2
    have hstep : findSec c2.secrets n k = findSec c.secrets n k := by
      have := procLabels_untouched m ns.name ns.labels c n k (h ns (by simp))
      rwa [h2] at this
    have hres : findSec c1.secrets n k = findSec c2.secrets n k := by
      have := ih c2 n k (fun u hu => h u (List.mem_cons_of_mem _ hu))
      rwa [h1] at this
    simp only [processNamespaces, h2, h1]
    rw [hres, hstep]

/-- The write postcondition of a slot whose registry key has a token
persists through the label loop. -/
theorem procLabels_persist (m : List (String × AuthData)) (nsName : String) :
    ∀ (labels : List (String × String)) (c : Cluster) (n k : String) (tok : AuthData),
      lookupAuth m k = some tok → writtenOK c.secrets n k (mkPull n k tok) →
      writtenOK (processLabels clusterK m nsName labels c).1.secrets n k (mkPull n k tok) := by
  intro labels
  induction labels with
  | nil => intro c n k tok _ hw; exact hw
  | cons kv rest ih =>
    intro c n k tok hm hw
    obtain ⟨lk, lv⟩ := kv
    by_cases hsel : (labelKeyMatch lk && lv == "true") = true
    · cases htk : lookupAuth m lk with
      | some tok2 =>
        obtain ⟨c2, hc2, _, hw2, _, hpres⟩ := cns_cluster c nsName lk tok2
        have hw2ok : writtenOK c2.secrets n k (mkPull n k tok) := by
          by_cases hpair : n = nsName ∧ k = lk
          · have htok : tok2 = tok := by
              rw [hpair.2, htk] at hm
              exact Option.some.inj hm
            rw [hpair.1, hpair.2, ← htok]
            exact hw2
          · exact hpres n k (mkPull n k tok) hpair hw
        have hres := ih c2 n k tok hm hw2ok
        simp only [processLabels, hsel, if_true, htk, hc2]
        exact hres
      | none =>
        have hres := ih c n k tok hm hw
        simp only [processLabels, hsel, if_true, htk]
        exact hres
    · rw [Bool.not_eq_true] at hsel
      have hres := ih c n k tok hm hw
      simp only [processLabels, hsel, Bool.false_eq_true, if_false]
      exact hres

/-- The write postcondition of a slot whose registry key has a token
persists through the namespace loop. -/
theorem procNS_persist (m : List (String × AuthData)) :
    ∀ (nss : List Namespace) (c : Cluster) (n k : String) (tok : AuthData),
      lookupAuth m k = some tok → writtenOK c.secrets n k (mkPull n k tok) →
      writtenOK (processNamespaces clusterK m nss c).1.secrets n k (mkPull n k tok) := by
  intro nss
  induction nss with
  | nil => intro c n k tok _ hw; exact hw
  | cons ns rest ih =>
    intro c n k tok hm hw
    obtain ⟨c2, h2, _⟩ := procLabels_cluster m ns.name ns.labels c
    have hstep : writtenOK c2.secrets n k (mkPull n k tok) := by
      have := procLabels_persist m ns.name ns.labels c n k tok hm hw
      rwa [h2] at this
    have hres := ih c2 n k tok hm hstep
    simp only [processNamespaces, h2]
    exact hres

/-- After the label loop, every selected label with a token has its slot
storing exactly the pull secret. -/
theorem procLabels_post (m : List (String × AuthData)) (nsName : String) :
    ∀ (labels : List (String × String)) (c : Cluster) (lk lv : String),
      (lk, lv) ∈ labels → (labelKeyMatch lk && lv == "true") = true →
      ∀ tok : AuthData, lookupAuth m lk = some tok →
      writtenOK (processLabels clusterK m nsName labels c).1.secrets nsName lk
        (mkPull nsName lk tok) := by
  intro labels
  induction labels with
  | nil => intro c lk lv hmem; cases hmem
  | cons kv rest ih =>
    intro c lk lv hmem hsel tok hm
    obtain ⟨k0, v0⟩ := kv
    by_cases hsel0 : (labelKeyMatch k0 && v0 == "true") = true
    · cases htk0 : lookupAuth m k0 with
      | some tok0 =>
        obtain ⟨c2, hc2, _, hw2, _, _⟩ := cns_cluster c nsName k0 tok0
        rcases List.mem_cons.mp hmem with heq | hmem2
        · have hlk : lk = k0 := congrArg Prod.fst heq
          have htok : tok0 = tok := by
            rw [← hlk, hm] at htk0
            exact (Option.some.inj htk0).symm
          have hw2ok : writtenOK c2.secrets nsName lk (mkPull nsName lk tok) := by
            rw [hlk, ← htok]
            exact hw2
          have hres := procLabels_persist m nsName rest c2 nsName lk tok hm hw2ok
          simp only [processLabels, hsel0, if_true, htk0, hc2]
          exact hres
        · have hres := ih c2 lk lv hmem2 hsel tok hm
          simp only [processLabels, hsel0, if_true, htk0, hc2]
          exact hres
      | none =>
        rcases List.mem_cons.mp hmem with heq | hmem2
        · have hlk : lk = k0 := congrArg Prod.fst heq
          rw [← hlk, hm] at htk0
          cases htk0
        · have hres := ih c lk lv hmem2 hsel tok hm
          simp only [processLabels, hsel0, if_true, htk0]
          exact hres
    · rcases List.mem_cons.mp hmem with heq | hmem2
      · have hlk : lk = k0 := congrArg Prod.fst heq
        have hlv : lv = v0 := congrArg Prod.snd heq
        rw [← hlk, ← hlv] at hsel0
        exact absurd hsel hsel0
      · rw [Bool.not_eq_true] at hsel0
        have hres := ih c lk lv hmem2 hsel tok hm
        simp only [processLabels, hsel0, Bool.false_eq_true, if_false]
        exact hres

/-- After the namespace loop, every candidate (namespace, selected label)
pair with a token has its slot storing exactly the pull secret. -/
theorem procNS_post (m : List (String × AuthData)) :
    ∀ (nss : List Namespace) (c : Cluster) (ns : Namespace), ns ∈ nss →
      ∀ (lk lv : String), (lk, lv) ∈ ns.labels →
      (labelKeyMatch lk && lv == "true") = true →
      ∀ tok : AuthData, lookupAuth m lk = some tok →
      writtenOK (processNamespaces clusterK m nss c).1.secrets ns.name lk
        (mkPull ns.name lk tok) := by
  intro nss
  induction nss with
  | nil => intro c ns hmem; cases hmem
  | cons ns0 rest ih =>
    intro c ns hmem lk lv hlab hsel tok hm
    obtain ⟨c2, h2, _⟩ := procLabels_cluster m ns0.name ns0.labels c
    rcases List.mem_cons.mp hmem with heq | hmem2
    · have hstep : writtenOK c2.secrets ns.name lk (mkPull ns.name lk tok) := by
        have := procLabels_post m ns0.name ns0.labels c lk lv (heq ▸ hlab) hsel tok hm
        rw [h2] at this
        rw [heq]
        exact this
      have hres := procNS_persist m rest c2 ns.name lk tok hm hstep
      simp only [processNamespaces, h2]
      exact hres
    · have hres := ih c2 ns hmem2 lk lv hlab hsel tok hm
      simp only [processNamespaces, h2]
      exact hres

/-- The label loop is a no-op on a cluster where every slot it would
write already stores exactly the pull secret it would write. -/
theorem procLabels_noop (m : List (String × AuthData)) (nsName : String) :
    ∀ (labels : List (String × String)) (c : Cluster),
      (∀ lk lv, (lk, lv) ∈ labels → (labelKeyMatch lk && lv == "true") = true →
        ∀ tok : AuthData, lookupAuth m lk = some tok →
        writtenOK c.secrets nsName lk (mkPull nsName lk tok)) →
      processLabels clusterK m nsName labels c = (c, labelWrites m nsName labels, none) := by
  intro labels
  induction labels with
  | nil => intro c _; rfl
  | cons kv rest ih =>
    intro c h
    obtain ⟨lk, lv⟩ := kv
    have hrest := fun lk1 lv1 hm1 => h lk1 lv1 (List.mem_cons_of_mem _ hm1)
    by_cases hsel : (labelKeyMatch lk && lv == "true") = true
    · cases htk : lookupAuth m lk with
      | some tok =>
        have hnoop := cns_cluster_noop c nsName lk tok
          (h lk lv (List.mem_cons_self _ _) hsel tok htk)
        rw [labelWrites_cons_pos (by simp [labelSelected, hsel, htk])]
        simp [processLabels, hsel, htk, hnoop, ih c hrest]
      | none =>
        rw [labelWrites_cons_neg (by simp [htk])]
        simp [processLabels, hsel, htk, ih c hrest]
    · rw [Bool.not_eq_true] at hsel
      rw [labelWrites_cons_neg (by simp [labelSelected, hsel])]
      simp [processLabels, hsel, ih c hrest]

/-- The namespace loop is a no-op on a cluster where every slot it would
write already stores exactly the pull secret it would write. -/
theorem procNS_noop (m : List (String × AuthData)) :
    ∀ (nss : List Namespace) (c : Cluster),
      (∀ ns ∈ nss, ∀ lk lv, (lk, lv) ∈ ns.labels →
        (labelKeyMatch lk && lv == "true") = true →
        ∀ tok : AuthData, lookupAuth m lk = some tok →
        writtenOK c.secrets ns.name lk (mkPull ns.name lk tok)) →
      processNamespaces clusterK m nss c = (c, writePairs m nss, none) := by
  intro nss
  induction nss with
  | nil => intro c _; rfl
  | cons ns0 rest ih =>
    intro c h
    have h0 := procLabels_noop m ns0.name ns0.labels c
      (fun lk lv hm1 => h ns0 (List.mem_cons_self _ _) lk lv hm1)
    have hr := ih c (fun u hu => h u (List.mem_cons_of_mem _ hu))
    have hwp : writePairs m (ns0 :: rest) =
        labelWrites m ns0.name ns0.labels ++ writePairs m rest := by
      unfold writePairs
      rw [List.flatMap_cons]
    rw [hwp]
    simp only [processNamespaces, h0, hr]

/- ----------------------------------------------------------------------
Helper lemmas: createECRAuthTokenData.
---------------------------------------------------------------------- -/

/-- When the token fetch succeeded and the credentials secret of a
requested registry key exists, the token map holds the token returned by
the registry client on the credentials extracted from that secret. -/
theorem tokenData_lookup (getSec : String → String → Except Err Secret)
    (ecrFn : String → String → String → Except Err AuthData) (cfg : Config) :
    ∀ (names : List String) (m : List (String × AuthData)) (K : String) (s : Secret),
      createECRAuthTokenData getSec ecrFn cfg names = .ok m → K ∈ names →
      getSec cfg.HostNamespace (credsSecretName cfg K) = .ok s →
      ∃ tok : AuthData,
        ecrFn (lookupData s.data "aws_region") (lookupData s.data "aws_access_key_id")
          (lookupData s.data "aws_secret_access_key") = .ok tok ∧
        lookupAuth m K = some tok := by
  intro names
  induction names with
  | nil => intro m K s _ hmem; cases hmem
  | cons n rest ih =>
    intro m K s hok hmem hcred
    rw [createECRAuthTokenData] at hok
    split at hok
    next e heq =>
      split at hok
      · have hmem2 : K ∈ rest := by
          rcases List.mem_cons.mp hmem with heq2 | h2
          · rw [heq2] at hcred
            rw [hcred] at heq
            cases heq
          · exact h2
        exact ih m K s hok hmem2 hcred
      · cases hok
    next sec heq =>
      split at hok
      next e heq2 => cases hok
      next tok heq2 =>
        split at hok
        next e heq3 => cases hok
        next m2 heq3 =>
          have hm : (n, tok) :: m2 = m := Except.ok.inj hok
          by_cases hn : n = K
          · subst hn
            have hsec : s = sec := by
              rw [hcred] at heq
              exact Except.ok.inj heq
            refine ⟨tok, ?_, ?_⟩
            · rw [hsec]
              exact heq2
            · rw [← hm]
              simp [lookupAuth]
          · have hmem2 : K ∈ rest := by
              rcases List.mem_cons.mp hmem with heq4 | h2
              · exact absurd heq4.symm hn
              · exact h2
            obtain ⟨tokK, hK1, hK2⟩ := ih m2 K s heq3 hmem2 hcred
            refine ⟨tokK, hK1, ?_⟩
            rw [← hm]
            have hne : (n == K) = false := by
              cases hb : n == K with
              | false => rfl
              | true => exact absurd (by simpa using hb) hn
            have hskip : lookupAuth ((n, tok) :: m2) K = lookupAuth m2 K := by
              unfold lookupAuth
              rw [List.find?_cons_of_neg _ (by simp [hne])]
            rw [hskip]
            exact hK2

/-- createECRAuthTokenData only consults GetSecret on the credentials
secret names derived from the requested registry keys. -/
theorem tokenData_congr (g1 g2 : String → String → Except Err Secret)
    (ecrFn : String → String → String → Except Err AuthData) (cfg : Config) :
    ∀ names : List String,
      (∀ n ∈ names, g1 cfg.HostNamespace (credsSecretName cfg n) =
        g2 cfg.HostNamespace (credsSecretName cfg n)) →
      createECRAuthTokenData g1 ecrFn cfg names = createECRAuthTokenData g2 ecrFn cfg names := by
  intro names
  induction names with
  | nil => intro _; rfl
  | cons n rest ih =>
    intro h
    rw [createECRAuthTokenData, createECRAuthTokenData, ← h n (List.mem_cons_self _ _),
      ih (fun u hu => h u (List.mem_cons_of_mem _ hu))]

/- ----------------------------------------------------------------------
Helper lemmas: hyphen counting.  Every string matched by the label key
pattern carries exactly two hyphens (the two in the Region group), while
a credentials secret name prefix-"-"-K built from a matching K carries at
least three; hence credentials secret names never match the pattern and
pull-secret writes never touch them.
---------------------------------------------------------------------- -/

/-- Number of hyphens in a character list. -/
def hyCount (l : List Char) : Nat := l.countP (fun c => c == '-')

theorem hyCount_cons (c : Char) (l : List Char) :
    hyCount (c :: l) = hyCount l + if c == '-' then 1 else 0 := by
  unfold hyCount
  rw [List.countP_cons]

theorem hyCount_append (l1 l2 : List Char) :
    hyCount (l1 ++ l2) = hyCount l1 + hyCount l2 := by
  unfold hyCount
  rw [List.countP_append]

theorem isWordChar_not_hyphen {c : Char} (h : isWordChar c = true) : (c == '-') = false := by
  cases hb : c == '-' with
  | false => rfl
  | true =>
    have : c = '-' := by simpa using hb
    rw [this] at h
    exact absurd h (by decide)

theorem isDigit_not_hyphen {c : Char} (h : c.isDigit = true) : (c == '-') = false := by
  cases hb : c == '-' with
  | false => rfl
  | true =>
    have : c = '-' := by simpa using hb
    rw [this] at h
    exact absurd h (by decide)

theorem dropDigits_hyCount : ∀ (n : Nat) (cs r : List Char),
    dropDigits n cs = some r → hyCount cs = hyCount r := by
  intro n
  induction n with
  | zero =>
    intro cs r h
    rw [show r = cs from (Option.some.inj h).symm]
  | succ n2 ih =>
    intro cs r h
    cases cs with
    | nil => cases h
    | cons c cs2 =>
      rw [dropDigits] at h
      split at h
      next hd =>
        rw [hyCount_cons, isDigit_not_hyphen hd, if_neg (by simp)]
        exact ih cs2 r h
      next => cases h

theorem dropLit_hyCount : ∀ (lit cs r : List Char),
    dropLit lit cs = some r → hyCount cs = hyCount lit + hyCount r := by
  intro lit
  induction lit with
  | nil =>
    intro cs r h
    have hr : r = cs := (Option.some.inj h).symm
    subst hr
    simp [hyCount]
  | cons l ls ih =>
    intro cs r h
    cases cs with
    | nil => cases h
    | cons c cs2 =>
      rw [dropLit] at h
      split at h
      next hc =>
        rw [hyCount_cons, hyCount_cons, hc, ih cs2 r h]
        omega
      next => cases h

theorem allWord_hyCount {l : List Char} (h : ∀ x ∈ l, isWordChar x = true) :
    hyCount l = 0 := by
  unfold hyCount
  rw [List.countP_eq_zero]
  intro a ha
  simp [isWordChar_not_hyphen (h a ha)]

theorem matchRegionTail_hyCount {cs : List Char} (h : matchRegionTail cs = true) :
    hyCount cs = 2 := by
  rw [matchRegionTail.eq_def] at h
  split at h
  any_goals exact Bool.noConfusion h
  rename_i c1 c2 c3 rest
  split at h
  any_goals exact Bool.noConfusion h
  rename_i hw
  split at h
  any_goals exact Bool.noConfusion h
  split at h
  any_goals exact Bool.noConfusion h
  rename_i d1 d rest3 heq
  simp only [Bool.and_eq_true] at h hw
  obtain ⟨⟨hd1, hd⟩, hlit⟩ := h
  obtain ⟨⟨hw1, hw2⟩, hc3⟩ := hw
  have hd1' : d1 = '-' := of_decide_eq_true hd1
  have hc3' : c3 = '-' := of_decide_eq_true hc3
  have hlit2 : dropLit ".amazonaws.com".data rest3 = some [] := of_decide_eq_true hlit
  have hrest3 : hyCount rest3 = 0 := by
    have hc := dropLit_hyCount ".amazonaws.com".data rest3 [] hlit2
    rw [hc]
    decide
  have hdrop : hyCount (rest.dropWhile isWordChar) = 1 + hyCount rest3 := by
    rw [heq, hyCount_cons, hyCount_cons, hd1', isDigit_not_hyphen hd,
      show (('-' : Char) == '-') = true from by decide]
    simp only [eq_self_iff_true, if_true, Bool.false_eq_true, if_false]
    omega
  have htake : hyCount (rest.takeWhile isWordChar) = 0 :=
    allWord_hyCount (fun x hx => List.mem_takeWhile_imp hx)
  have hrest : hyCount rest = 1 := by
    have hsplit := List.takeWhile_append_dropWhile (p := isWordChar) (l := rest)
    have hadd := hyCount_append (rest.takeWhile isWordChar) (rest.dropWhile isWordChar)
    rw [hsplit] at hadd
    omega
  rw [hyCount_cons, hyCount_cons, hyCount_cons, hc3',
    isWordChar_not_hyphen hw1, isWordChar_not_hyphen hw2,
    show (('-' : Char) == '-') = true from by decide]
  simp only [eq_self_iff_true, if_true, Bool.false_eq_true, if_false]
  omega

theorem labelKeyMatch_hyCount {s : String} (h : labelKeyMatch s = true) :
    hyCount s.data = 2 := by
  rw [labelKeyMatch] at h
  split at h
  next => cases h
  next r1 heq1 =>
    split at h
    next => cases h
    next r2 heq2 =>
      rw [dropDigits_hyCount 12 s.data r1 heq1, dropLit_hyCount ".dkr.ecr.".data r1 r2 heq2,
        matchRegionTail_hyCount h]
      decide

/-- A credentials secret name built from a matching registry key never
itself matches the registry pattern. -/
theorem credsSecretName_no_match (cfg : Config) (n : String)
    (h : labelKeyMatch n = true) : labelKeyMatch (credsSecretName cfg n) = false := by
  cases hb : labelKeyMatch (credsSecretName cfg n) with
  | false => rfl
  | true =>
    exfalso
    have h2 := labelKeyMatch_hyCount hb
    have h1 := labelKeyMatch_hyCount h
    unfold credsSecretName at h2
    rw [String.data_append, String.data_append, hyCount_append, hyCount_append, h1] at h2
    have : hyCount "-".data = 1 := by decide
    omega

/- ----------------------------------------------------------------------
Helper lemmas: forward direction of the pattern parser.
---------------------------------------------------------------------- -/

theorem dropDigits_all : ∀ (l t : List Char), (∀ c ∈ l, c.isDigit = true) →
    dropDigits l.length (l ++ t) = some t := by
  intro l
  induction l with
  | nil => intro t _; rfl
  | cons c cs ih =>
    intro t h
    show dropDigits (cs.length + 1) (c :: (cs ++ t)) = some t
    rw [dropDigits, if_pos (h c (List.mem_cons_self _ _))]
    exact ih t (fun u hu => h u (List.mem_cons_of_mem _ hu))

theorem dropLit_self_append : ∀ (l t : List Char), dropLit l (l ++ t) = some t := by
  intro l
  induction l with
  | nil => intro t; rfl
  | cons c cs ih =>
    intro t
    show dropLit (c :: cs) (c :: (cs ++ t)) = some t
    rw [dropLit, if_pos rfl]
    exact ih t

theorem takeWhile_all_append : ∀ (mid t : List Char) (c : Char),
    (∀ x ∈ mid, isWordChar x = true) → isWordChar c = false →
    (mid ++ c :: t).takeWhile isWordChar = mid ∧
      (mid ++ c :: t).dropWhile isWordChar = c :: t := by
  intro mid
  induction mid with
  | nil =>
    intro t c _ hc
    constructor
    · show (c :: t).takeWhile isWordChar = []
      rw [List.takeWhile_cons, hc]
      rfl
    · show (c :: t).dropWhile isWordChar = c :: t
      rw [List.dropWhile_cons, hc]
      rfl
  | cons x xs ih =>
    intro t c h hc
    have hx : isWordChar x = true := h x (List.mem_cons_self _ _)
    obtain ⟨ht, hd⟩ := ih t c (fun u hu => h u (List.mem_cons_of_mem _ hu)) hc
    constructor
    · show (x :: (xs ++ c :: t)).takeWhile isWordChar = x :: xs
      rw [List.takeWhile_cons, hx]
      simp only [if_true]
      rw [ht]
    · show (x :: (xs ++ c :: t)).dropWhile isWordChar = c :: t
      rw [List.dropWhile_cons, hx]
      simp only [if_true]
      rw [hd]

/- ----------------------------------------------------------------------
Helper lemmas: shapes of renewECRImagePullSecrets over the concrete
cluster.
---------------------------------------------------------------------- -/

theorem getNTP_all (c : Cluster) :
    getNamespacesToProcess clusterK c allNamespacesKey =
      .ok (c.namespaces.filter nsIsCandidate) := rfl

theorem getNTP_single (c : Cluster) (key : String) (ns : Namespace)
    (hk : key ≠ allNamespacesKey) (h : findNS c.namespaces key = some ns) :
    getNamespacesToProcess clusterK c key = .ok ([ns].filter nsIsCandidate) := by
  unfold getNamespacesToProcess clusterK
  rw [if_neg hk]
  simp only [h]

theorem getNTP_single_missing (c : Cluster) (key : String)
    (hk : key ≠ allNamespacesKey) (h : findNS c.namespaces key = none) :
    getNamespacesToProcess clusterK c key =
      .error (Err.wrap ("get namespace [" ++ key ++ "] failed")
        (.notFound ("namespaces \"" ++ key ++ "\" not found"))) := by
  unfold getNamespacesToProcess clusterK
  rw [if_neg hk]
  simp only [h]

theorem renew_shape_ntp_err (ecrFn : String → String → String → Except Err AuthData)
    (cfg : Config) (key : String) (c : Cluster) (e : Err)
    (h : getNamespacesToProcess clusterK c key = .error e) :
    renewECRImagePullSecrets clusterK ecrFn cfg key c =
      ⟨c, [], 0, some (e.wrap "get namespaces to process failed")⟩ := by
  unfold renewECRImagePullSecrets
  simp only [h]

theorem renew_shape_empty (ecrFn : String → String → String → Except Err AuthData)
    (cfg : Config) (key : String) (c : Cluster) (nss : List Namespace)
    (h : getNamespacesToProcess clusterK c key = .ok nss) (h2 : nss.isEmpty = true) :
    renewECRImagePullSecrets clusterK ecrFn cfg key c = ⟨c, [], 0, none⟩ := by
  unfold renewECRImagePullSecrets
  simp only [h, h2, if_true]

theorem renew_shape_tok_err (ecrFn : String → String → String → Except Err AuthData)
    (cfg : Config) (key : String) (c : Cluster) (nss : List Namespace) (e : Err)
    (h : getNamespacesToProcess clusterK c key = .ok nss) (h2 : nss.isEmpty = false)
    (h3 : createECRAuthTokenData (clusterK.getSecret c) ecrFn cfg
      (getDistinctSecretNames nss) = .error e) :
    renewECRImagePullSecrets clusterK ecrFn cfg key c =
      ⟨c, [], 0, some (e.wrap "create ECR authorization tokens failed")⟩ := by
  unfold renewECRImagePullSecrets
  simp only [h, h2, Bool.false_eq_true, if_false, h3]

theorem renew_shape_tok_empty (ecrFn : String → String → String → Except Err AuthData)
    (cfg : Config) (key : String) (c : Cluster) (nss : List Namespace)
    (m : List (String × AuthData))
    (h : getNamespacesToProcess clusterK c key = .ok nss) (h2 : nss.isEmpty = false)
    (h3 : createECRAuthTokenData (clusterK.getSecret c) ecrFn cfg
      (getDistinctSecretNames nss) = .ok m)
    (h4 : m.isEmpty = true) :
    renewECRImagePullSecrets clusterK ecrFn cfg key c = ⟨c, [], 0, none⟩ := by
  unfold renewECRImagePullSecrets
  simp only [h, h2, Bool.false_eq_true, if_false, h3, h4, if_true]

theorem renew_shape_run (ecrFn : String → String → String → Except Err AuthData)
    (cfg : Config) (key : String) (c : Cluster) (nss : List Namespace)
    (m : List (String × AuthData)) (c1 : Cluster)
    (h : getNamespacesToProcess clusterK c key = .ok nss) (h2 : nss.isEmpty = false)
    (h3 : createECRAuthTokenData (clusterK.getSecret c) ecrFn cfg
      (getDistinctSecretNames nss) = .ok m)
    (h4 : m.isEmpty = false)
    (h5 : processNamespaces clusterK m nss c = (c1, writePairs m nss, none)) :
    renewECRImagePullSecrets clusterK ecrFn cfg key c =
      ⟨c1, writePairs m nss, if key = allNamespacesKey then 1 else 0, none⟩ := by
  unfold renewECRImagePullSecrets
  simp only [h, h2, Bool.false_eq_true, if_false, h3, h4, h5]

theorem nsIsCandidate_intro (ns : Namespace) (K : String)
    (hph : ns.phase = namespaceActive) (hlab : (K, "true") ∈ ns.labels)
    (hmatch : labelKeyMatch K = true) : nsIsCandidate ns = true := by
  unfold nsIsCandidate
  rw [Bool.and_eq_true]
  constructor
  · rw [hph]
    simp
  · rw [List.any_eq_true]
    exact ⟨(K, "true"), hlab, by simp [labelSelected, hmatch]⟩

theorem nsIsCandidate_elim (ns : Namespace) (h : nsIsCandidate ns = true) :
    ns.phase = namespaceActive ∧
      ∃ kv ∈ ns.labels, labelKeyMatch kv.1 = true ∧ kv.2 = "true" := by
  unfold nsIsCandidate at h
  rw [Bool.and_eq_true] at h
  obtain ⟨h1, h2⟩ := h
  refine ⟨by simpa using h1, ?_⟩
  rw [List.any_eq_true] at h2
  obtain ⟨kv, hkv, hsel⟩ := h2
  simp only [labelSelected, Bool.and_eq_true] at hsel
  exact ⟨kv, hkv, hsel.1, by simpa using hsel.2⟩

/-- Every namespace the candidate computation returns is a stored
namespace object passing the candidate filter. -/
theorem getNTP_ok_sub (c : Cluster) (key : String) (nss : List Namespace)
    (h : getNamespacesToProcess clusterK c key = .ok nss) :
    ∀ ns ∈ nss, ns ∈ c.namespaces ∧ nsIsCandidate ns = true := by
  intro ns hns
  by_cases hkall : key = allNamespacesKey
  · subst hkall
    rw [getNTP_all] at h
    have hlist : c.namespaces.filter nsIsCandidate = nss := Except.ok.inj h
    rw [← hlist] at hns
    exact ⟨(List.mem_filter.mp hns).1, (List.mem_filter.mp hns).2⟩
  · cases hf : findNS c.namespaces key with
    | none =>
      rw [getNTP_single_missing c key hkall hf] at h
      cases h
    | some ns0 =>
      rw [getNTP_single c key ns0 hkall hf] at h
      have hlist : [ns0].filter nsIsCandidate = nss := Except.ok.inj h
      rw [← hlist] at hns
      have hm := List.mem_filter.mp hns
      have hns0 : ns = ns0 := by simpa using hm.1
      refine ⟨?_, hm.2⟩
      rw [hns0]
      exact List.mem_of_find?_eq_some hf

/-- The candidate computation depends only on the namespace objects. -/
theorem getNTP_congr (c c2 : Cluster) (key : String) (nss : List Namespace)
    (hns : c2.namespaces = c.namespaces)
    (h : getNamespacesToProcess clusterK c key = .ok nss) :
    getNamespacesToProcess clusterK c2 key = .ok nss := by
  by_cases hkall : key = allNamespacesKey
  · subst hkall
    rw [getNTP_all] at h ⊢
    rw [hns]
    exact h
  · cases hf : findNS c.namespaces key with
    | none =>
      rw [getNTP_single_missing c key hkall hf] at h
      cases h
    | some ns0 =>
      rw [getNTP_single c key ns0 hkall hf] at h
      rw [getNTP_single c2 key ns0 hkall (by rw [findNS, hns]; exact hf)]
      exact h

/-- The stored-secret read of the concrete accessor depends only on the
stored secret objects at the requested slot. -/
theorem clusterK_getSecret_congr (c c2 : Cluster) (n k : String)
    (h : findSec c2.secrets n k = findSec c.secrets n k) :
    clusterK.getSecret c2 n k = clusterK.getSecret c n k := by
  show (match findSec c2.secrets n k with
        | some s => Except.ok s
        | none => Except.error (Err.notFound ("secrets \"" ++ k ++ "\" not found"))) =
       (match findSec c.secrets n k with
        | some s => Except.ok s
        | none => Except.error (Err.notFound ("secrets \"" ++ k ++ "\" not found")))
  rw [h]

/- ----------------------------------------------------------------------
Concrete fixtures (the test fixtures of the repository: registry keys,
default config, fake token client, a labelled namespace, a credentials
secret).
---------------------------------------------------------------------- -/

def ecr1 : String := "123456789012.dkr.ecr.eu-west-1.amazonaws.com"

def ecr2 : String := "444456781111.dkr.ecr.us-east-1.amazonaws.com"

def exCfg : Config := { AWSCredentialsSecretPfx := "eatr-aws-credentials", HostNamespace := "ci-cd" }

def exTok : AuthData :=
  { authorizationToken := "SomeAuthTokenJibberish", proxyEndpoint := "https://account.ecr.aws.com" }

def exEcrFn : String → String → String → Except Err AuthData := fun _ _ _ => .ok exTok

def exCredsSecret : Secret :=
  { name := credsSecretName exCfg ecr1
    ns := "ci-cd"
    secType := "Opaque"
    data := [("aws_region", "eu-west-1"), ("aws_access_key_id", "AKIA"),
             ("aws_secret_access_key", "S")] }

def exNS1 : Namespace :=
  { name := "ns-1", labels := [(ecr1, "true")], phase := "Active", resourceVersion := "1" }

def exCluster : Cluster := { namespaces := [exNS1], secrets := [exCredsSecret] }

def exClusterNoCreds : Cluster := { namespaces := [exNS1], secrets := [] }

/- ----------------------------------------------------------------------
The claims.
---------------------------------------------------------------------- -/

/-- C7: the namespace-update event handler enqueues the namespace name
exactly when the old and new resource versions differ; an update event
with equal resource versions never adds a key to the work queue. -/
theorem c7_update_enqueues_iff_resource_version_changed (oldNS newNS : Namespace)
    (q : List String) :
    (oldNS.resourceVersion = newNS.resourceVersion → onNamespaceUpdate oldNS newNS q = q) ∧
    (oldNS.resourceVersion ≠ newNS.resourceVersion →
      onNamespaceUpdate oldNS newNS q = q ++ [newNS.name]) := by
  constructor
  · intro h
    unfold onNamespaceUpdate
    rw [if_neg (fun hc => hc h)]
  · intro h
    unfold onNamespaceUpdate
    rw [if_pos h]

theorem c7_witness :
    onNamespaceUpdate exNS1 exNS1 [] = [] ∧
    onNamespaceUpdate exNS1
      { name := "ns-1", labels := [], phase := "Active", resourceVersion := "2" } [] =
      ["ns-1"] :=
  ⟨(c7_update_enqueues_iff_resource_version_changed exNS1 exNS1 []).1 rfl,
   (c7_update_enqueues_iff_resource_version_changed exNS1
      { name := "ns-1", labels := [], phase := "Active", resourceVersion := "2" } []).2
      (by decide)⟩

/-- C8: for a single-namespace key naming a namespace that does not
exist, the reconciliation returns the not-found error (not success) and
leaves the cluster unchanged, and the queue consumer swallows the error
and does not re-enqueue the key. -/
theorem c8_missing_namespace_error_swallowed_no_requeue (c : Cluster)
    (ecrFn : String → String → String → Except Err AuthData) (cfg : Config)
    (key : String) (rest : List String)
    (hk : key ≠ allNamespacesKey) (hmiss : findNS c.namespaces key = none) :
    (∃ msg, (renewECRImagePullSecrets clusterK ecrFn cfg key c).err =
      some (Err.notFound msg)) ∧
    (renewECRImagePullSecrets clusterK ecrFn cfg key c).st = c ∧
    runQueueConsumerStep clusterK ecrFn cfg c (key :: rest) =
      ((renewECRImagePullSecrets clusterK ecrFn cfg key c).st, rest) := by
  have hshape := renew_shape_ntp_err ecrFn cfg key c _
    (getNTP_single_missing c key hk hmiss)
  refine ⟨?_, ?_, rfl⟩
  · rw [hshape]
    exact ⟨_, rfl⟩
  · rw [hshape]

theorem c8_witness :
    ("absent-ns" ≠ allNamespacesKey ∧
      findNS exCluster.namespaces "absent-ns" = none) ∧
    (∃ msg, (renewECRImagePullSecrets clusterK exEcrFn exCfg "absent-ns" exCluster).err =
      some (Err.notFound msg)) ∧
    (renewECRImagePullSecrets clusterK exEcrFn exCfg "absent-ns" exCluster).st = exCluster ∧
    runQueueConsumerStep clusterK exEcrFn exCfg exCluster ["absent-ns"] =
      ((renewECRImagePullSecrets clusterK exEcrFn exCfg "absent-ns" exCluster).st, []) :=
  ⟨⟨by decide, by decide⟩,
   c8_missing_namespace_error_swallowed_no_requeue exCluster exEcrFn exCfg "absent-ns" []
     (by decide) (by decide)⟩

theorem createECR_cons_congr (getSec : String → String → Except Err Secret)
    (ecrFn : String → String → String → Except Err AuthData) (cfg : Config)
    (n : String) (l1 l2 : List String)
    (h12 : createECRAuthTokenData getSec ecrFn cfg l1 =
      createECRAuthTokenData getSec ecrFn cfg l2) :
    createECRAuthTokenData getSec ecrFn cfg (n :: l1) =
      createECRAuthTokenData getSec ecrFn cfg (n :: l2) := by
  simp only [createECRAuthTokenData]
  rw [h12]

/-- C2: in the token-fetch step, a not-found error on the credentials
secret of registry key R skips R entirely — wherever R appears among the
requested keys the run proceeds exactly as if R were not requested —
while any other error kind on reading the credentials secret of R aborts
the whole token fetch with that error (wrapped). -/
theorem c2_creds_not_found_skips_other_error_aborts
    (getSec : String → String → Except Err Secret)
    (ecrFn : String → String → String → Except Err AuthData) (cfg : Config)
    (R : String) (rest : List String) (e : Err)
    (h : getSec cfg.HostNamespace (credsSecretName cfg R) = .error e) :
    (e.isNotFound = true → ∀ pre post : List String,
      createECRAuthTokenData getSec ecrFn cfg (pre ++ R :: post) =
        createECRAuthTokenData getSec ecrFn cfg (pre ++ post)) ∧
    (e.isNotFound = false →
      createECRAuthTokenData getSec ecrFn cfg (R :: rest) =
        .error (e.wrap ("get namespace [" ++ cfg.HostNamespace ++
          "] AWS credentials secret [" ++ credsSecretName cfg R ++ "] failed"))) := by
  constructor
  · intro hnf pre
    induction pre with
    | nil =>
      intro post
      simp only [List.nil_append, createECRAuthTokenData, h, hnf, if_true]
    | cons n pre2 ih =>
      intro post
      calc createECRAuthTokenData getSec ecrFn cfg ((n :: pre2) ++ R :: post)
          = createECRAuthTokenData getSec ecrFn cfg (n :: (pre2 ++ R :: post)) := by
            rw [List.cons_append]
        _ = createECRAuthTokenData getSec ecrFn cfg (n :: (pre2 ++ post)) :=
            createECR_cons_congr getSec ecrFn cfg n _ _ (ih post)
        _ = createECRAuthTokenData getSec ecrFn cfg ((n :: pre2) ++ post) := by
            rw [List.cons_append]
  · intro hnf
    simp only [createECRAuthTokenData, h, hnf, Bool.false_eq_true, if_false]

def c2GetSec : String → String → Except Err Secret :=
  fun _ _ => .error (.notFound "secrets not found")

theorem c2_witness :
    (c2GetSec exCfg.HostNamespace (credsSecretName exCfg ecr1) =
      .error (.notFound "secrets not found")) ∧
    createECRAuthTokenData c2GetSec exEcrFn exCfg [ecr1] =
      createECRAuthTokenData c2GetSec exEcrFn exCfg [] :=
  ⟨rfl, (c2_creds_not_found_skips_other_error_aborts c2GetSec exEcrFn exCfg ecr1 []
    (.notFound "secrets not found") rfl).1 rfl [] []⟩

/-- C3 counterexample: a non-not-found GetSecret error does not abort
createNamespaceSecret; the code goes on to call CreateSecret, which here
succeeds, so the write is attempted and the call returns success. -/
def c3K : KSt (List String) where
  getNamespace := fun _ _ => .error (.other "unreachable")
  getNamespaces := fun _ => .ok []
  getSecret := fun _ _ _ => .error (.other "transient api failure")
  createSecret := fun st ns s => .ok (s, st ++ ["create " ++ ns ++ "/" ++ s.name])
  updateSecret := fun st ns s => .ok (s, st ++ ["update " ++ ns ++ "/" ++ s.name])

theorem c3_counterexample :
    (Err.isNotFound (.other "transient api failure") = false) ∧
    createNamespaceSecret c3K [] "ns-1" "the-secret" exTok =
      (["create ns-1/the-secret"], none) :=
  ⟨rfl, rfl⟩

/-- C3 (amended): createNamespaceSecret does not distinguish error kinds
from GetSecret: on any GetSecret error it writes via CreateSecret, on
success it writes via UpdateSecret; only an error of the write call aborts. -/
theorem c3_amended_any_get_error_creates {σ : Type} (K : KSt σ) (st : σ)
    (n k : String) (tok : AuthData) :
    (∀ e : Err, K.getSecret st n k = .error e →
      createNamespaceSecret K st n k tok =
        (match K.createSecret st n (mkPullSecretObj k tok) with
         | .ok r => (r.2, none)
         | .error e2 => (st, some (e2.wrap ("create or update of namespace [" ++ n ++
             "] secret [" ++ k ++ "] failed"))))) ∧
    (∀ s0 : Secret, K.getSecret st n k = .ok s0 →
      createNamespaceSecret K st n k tok =
        (match K.updateSecret st n (mkPullSecretObj k tok) with
         | .ok r => (r.2, none)
         | .error e2 => (st, some (e2.wrap ("create or update of namespace [" ++ n ++
             "] secret [" ++ k ++ "] failed"))))) := by
  constructor
  · intro e h
    simp only [createNamespaceSecret, h]
  · intro s0 h
    simp only [createNamespaceSecret, h]

theorem c3_witness :
    (c3K.getSecret [] "ns-1" "the-secret" = .error (.other "transient api failure")) ∧
    createNamespaceSecret c3K [] "ns-1" "the-secret" exTok =
      (match c3K.createSecret [] "ns-1" (mkPullSecretObj "the-secret" exTok) with
       | .ok r => (r.2, none)
       | .error e2 => (([] : List String), some (e2.wrap
           ("create or update of namespace [ns-1] secret [the-secret] failed")))) :=
  ⟨rfl, (c3_amended_any_get_error_creates c3K [] "ns-1" "the-secret" exTok).1
    (.other "transient api failure") rfl⟩

theorem lookupData_missing (d : List (String × String)) (key : String)
    (h : ∀ kv ∈ d, kv.1 ≠ key) : lookupData d key = "" := by
  unfold lookupData
  rw [List.find?_eq_none.mpr (fun kv hkv hc => h kv hkv (by simpa using hc))]

/-- C10: a credentials secret lacking the aws_region /
aws_access_key_id / aws_secret_access_key keys does not fail extraction:
each missing field reads as the empty string and is passed unvalidated
to the registry token client. -/
theorem c10_missing_creds_fields_read_as_empty
    (getSec : String → String → Except Err Secret)
    (ecrFn : String → String → String → Except Err AuthData) (cfg : Config)
    (R : String) (rest : List String) (s : Secret)
    (hget : getSec cfg.HostNamespace (credsSecretName cfg R) = .ok s)
    (hmiss : ∀ kv ∈ s.data, kv.1 ≠ "aws_region" ∧ kv.1 ≠ "aws_access_key_id" ∧
      kv.1 ≠ "aws_secret_access_key") :
    lookupData s.data "aws_region" = "" ∧
    lookupData s.data "aws_access_key_id" = "" ∧
    lookupData s.data "aws_secret_access_key" = "" ∧
    createECRAuthTokenData getSec ecrFn cfg (R :: rest) =
      (match ecrFn "" "" "" with
       | .error e => .error (e.wrap ("get ECR authorization token failed for region [" ++
           "" ++ "] and access key id [" ++ "" ++ "]"))
       | .ok tok =>
         match createECRAuthTokenData getSec ecrFn cfg rest with
         | .error e2 => .error e2
         | .ok m => .ok ((R, tok) :: m)) := by
  have h1 : lookupData s.data "aws_region" = "" :=
    lookupData_missing _ _ (fun kv hkv => (hmiss kv hkv).1)
  have h2 : lookupData s.data "aws_access_key_id" = "" :=
    lookupData_missing _ _ (fun kv hkv => (hmiss kv hkv).2.1)
  have h3 : lookupData s.data "aws_secret_access_key" = "" :=
    lookupData_missing _ _ (fun kv hkv => (hmiss kv hkv).2.2)
  refine ⟨h1, h2, h3, ?_⟩
  simp only [createECRAuthTokenData, hget, h1, h2, h3]

def c10Secret : Secret :=
  { name := "creds"
    ns := "ci-cd"
    secType := "Opaque"
    data := [("unrelated", "x")] }

def c10GetSec : String → String → Except Err Secret := fun _ _ => .ok c10Secret

theorem c10_witness :
    (c10GetSec exCfg.HostNamespace (credsSecretName exCfg ecr1) = .ok c10Secret) ∧
    lookupData c10Secret.data "aws_region" = "" ∧
    createECRAuthTokenData c10GetSec exEcrFn exCfg [ecr1] = .ok [(ecr1, exTok)] := by
  have hth := c10_missing_creds_fields_read_as_empty c10GetSec exEcrFn exCfg ecr1 []
    c10Secret rfl (by decide)
  exact ⟨rfl, hth.1, by rw [hth.2.2.2]; rfl⟩

/-- C4 counterexample: a sentinel reconciliation with a non-empty
candidate set whose every credentials secret is absent returns success
yet does not increment secret_renewals_total (the code returns before the
increment when the token map is empty). -/
theorem c4_counterexample :
    getNamespacesToProcess clusterK exClusterNoCreds allNamespacesKey = .ok [exNS1] ∧
    (renewECRImagePullSecrets clusterK exEcrFn exCfg allNamespacesKey
      exClusterNoCreds).err = none ∧
    (renewECRImagePullSecrets clusterK exEcrFn exCfg allNamespacesKey
      exClusterNoCreds).renewalsInc = 0 :=
  ⟨rfl, rfl, rfl⟩

/-- C4 (amended): a sentinel reconciliation increments
secret_renewals_total exactly once when it reaches the materialization
step, i.e. when the candidate set is non-empty and at least one
authorization token was created; with an empty token map (every
credentials secret absent) it returns success without incrementing. -/
theorem c4_renewals_counter_sentinel
    (ecrFn : String → String → String → Except Err AuthData) (cfg : Config)
    (c : Cluster) (nss : List Namespace) (m : List (String × AuthData))
    (h : getNamespacesToProcess clusterK c allNamespacesKey = .ok nss)
    (h2 : nss.isEmpty = false)
    (h3 : createECRAuthTokenData (clusterK.getSecret c) ecrFn cfg
      (getDistinctSecretNames nss) = .ok m) :
    (m.isEmpty = false →
      (renewECRImagePullSecrets clusterK ecrFn cfg allNamespacesKey c).renewalsInc = 1 ∧
      (renewECRImagePullSecrets clusterK ecrFn cfg allNamespacesKey c).err = none) ∧
    (m.isEmpty = true →
      (renewECRImagePullSecrets clusterK ecrFn cfg allNamespacesKey c).renewalsInc = 0 ∧
      (renewECRImagePullSecrets clusterK ecrFn cfg allNamespacesKey c).err = none) := by
  constructor
  · intro h4
    obtain ⟨c1, h5, _⟩ := procNS_cluster m nss c
    rw [renew_shape_run ecrFn cfg allNamespacesKey c nss m c1 h h2 h3 h4 h5]
    exact ⟨by rw [if_pos rfl], rfl⟩
  · intro h4
    rw [renew_shape_tok_empty ecrFn cfg allNamespacesKey c nss m h h2 h3 h4]
    exact ⟨rfl, rfl⟩

theorem c4_witness :
    (getNamespacesToProcess clusterK exCluster allNamespacesKey = .ok [exNS1] ∧
      createECRAuthTokenData (clusterK.getSecret exCluster) exEcrFn exCfg
        (getDistinctSecretNames [exNS1]) = .ok [(ecr1, exTok)]) ∧
    (renewECRImagePullSecrets clusterK exEcrFn exCfg allNamespacesKey
      exCluster).renewalsInc = 1 ∧
    (renewECRImagePullSecrets clusterK exEcrFn exCfg allNamespacesKey
      exCluster).err = none :=
  ⟨⟨rfl, rfl⟩,
   (c4_renewals_counter_sentinel exEcrFn exCfg exCluster [exNS1] [(ecr1, exTok)]
      rfl rfl rfl).1 rfl⟩

/-- C9 counterexample: the claim fails for the non-empty region
substring "a": the source pattern requires the region to have the shape
word-word, hyphen, word run, hyphen, digit, not an arbitrary non-empty
string. -/
theorem c9_counterexample :
    "a" ≠ "" ∧
    labelKeyMatch ("123456789012" ++ ".dkr.ecr." ++ "a" ++ ".amazonaws.com") = false :=
  ⟨by decide, by decide⟩

/-- C9 (amended): the region subpattern of the source is `\w{2}-\w+-\d`
(looser than the recommended `[a-z]{2}-[a-z]+-\d+` only in the character
classes): for every 12-digit account id and every region substring of
the shape two word characters, hyphen, a non-empty word-character run,
hyphen, one digit, the assembled registry string matches the label-key
pattern. -/
theorem c9_region_shape_matches (acct r : String) (c1 c2 d : Char) (mid : List Char)
    (hlen : acct.data.length = 12) (hdig : ∀ ch ∈ acct.data, ch.isDigit = true)
    (hr : r.data = c1 :: c2 :: '-' :: (mid ++ '-' :: [d]))
    (hc1 : isWordChar c1 = true) (hc2 : isWordChar c2 = true)
    (hmid : ∀ x ∈ mid, isWordChar x = true) (hmidne : mid ≠ [])
    (hd : d.isDigit = true) :
    labelKeyMatch (acct ++ ".dkr.ecr." ++ r ++ ".amazonaws.com") = true := by
  have hdata : (acct ++ ".dkr.ecr." ++ r ++ ".amazonaws.com").data =
      acct.data ++ (".dkr.ecr.".data ++ (r.data ++ ".amazonaws.com".data)) := by
    rw [String.data_append, String.data_append, String.data_append,
      List.append_assoc, List.append_assoc]
  have h12 : dropDigits 12
      (acct.data ++ (".dkr.ecr.".data ++ (r.data ++ ".amazonaws.com".data))) =
      some (".dkr.ecr.".data ++ (r.data ++ ".amazonaws.com".data)) := by
    rw [← hlen]
    exact dropDigits_all acct.data _ hdig
  unfold labelKeyMatch
  rw [hdata]
  simp only [h12, dropLit_self_append]
  have hshape : r.data ++ ".amazonaws.com".data =
      c1 :: c2 :: '-' :: (mid ++ '-' :: d :: ".amazonaws.com".data) := by
    rw [hr]
    simp [List.append_assoc]
  rw [hshape]
  obtain ⟨htake, hdrop⟩ := takeWhile_all_append mid (d :: ".amazonaws.com".data) '-'
    hmid (by decide)
  have hempty : mid.isEmpty = false := by
    cases mid with
    | nil => exact absurd rfl hmidne
    | cons _ _ => rfl
  have hlit : dropLit ".amazonaws.com".data ".amazonaws.com".data = some [] := by
    have hx := dropLit_self_append ".amazonaws.com".data []
    rwa [List.append_nil] at hx
  simp only [matchRegionTail, hc1, hc2, htake, hdrop, hempty, hd, hlit]
  simp

/-- C1: for every Active namespace carrying a matching label key K with
value "true" whose credentials secret exists in the host namespace, a
successful reconciliation (for that namespace or for the sentinel key)
leaves a secret named exactly K in that namespace, of the
docker-config-json type, whose single payload key holds the literal JSON
document built from the token fetched during that reconciliation. -/
theorem c1_pull_secret_materialized (c : Cluster)
    (ecrFn : String → String → String → Except Err AuthData) (cfg : Config)
    (key : String) (ns : Namespace) (K : String) (s : Secret)
    (hmem : ns ∈ c.namespaces)
    (hph : ns.phase = namespaceActive)
    (hlab : (K, "true") ∈ ns.labels)
    (hmatch : labelKeyMatch K = true)
    (hcred : clusterK.getSecret c cfg.HostNamespace (credsSecretName cfg K) = .ok s)
    (hkey : key = allNamespacesKey ∨ (key = ns.name ∧ findNS c.namespaces ns.name = some ns))
    (hok : (renewECRImagePullSecrets clusterK ecrFn cfg key c).err = none) :
    ∃ tok : AuthData,
      ecrFn (lookupData s.data "aws_region") (lookupData s.data "aws_access_key_id")
        (lookupData s.data "aws_secret_access_key") = .ok tok ∧
      findSec (renewECRImagePullSecrets clusterK ecrFn cfg key c).st.secrets ns.name K =
        some (mkPull ns.name K tok) := by
  have hcand : nsIsCandidate ns = true := nsIsCandidate_intro ns K hph hlab hmatch
  have hcase : ∃ nss, getNamespacesToProcess clusterK c key = .ok nss ∧ ns ∈ nss := by
    by_cases hkall : key = allNamespacesKey
    · subst hkall
      exact ⟨_, getNTP_all c, List.mem_filter.mpr ⟨hmem, hcand⟩⟩
    · rcases hkey with hk | ⟨hk, hfind⟩
      · exact absurd hk hkall
      · subst hk
        refine ⟨[ns].filter nsIsCandidate, getNTP_single c ns.name ns hkall hfind, ?_⟩
        exact List.mem_filter.mpr ⟨List.mem_cons_self _ _, hcand⟩
  obtain ⟨nss, hntp, hns⟩ := hcase
  have hne : nss.isEmpty = false := by
    cases hemp : nss.isEmpty with
    | false => rfl
    | true => exact absurd (List.isEmpty_iff.mp hemp ▸ hns) (List.not_mem_nil ns)
  have hKmem : K ∈ getDistinctSecretNames nss :=
    (mem_getDistinctSecretNames K nss).mpr ((mem_collectSelectedNames K nss).mpr
      ⟨ns, hns, "true", hlab, by simp [labelSelected, hmatch]⟩)
  cases h3 : createECRAuthTokenData (clusterK.getSecret c) ecrFn cfg
      (getDistinctSecretNames nss) with
  | error e =>
    rw [renew_shape_tok_err ecrFn cfg key c nss e hntp hne h3] at hok
    cases hok
  | ok m =>
    obtain ⟨tok, hecr, hlook⟩ := tokenData_lookup (clusterK.getSecret c) ecrFn cfg
      (getDistinctSecretNames nss) m K s h3 hKmem hcred
    have h4 : m.isEmpty = false := by
      cases m with
      | nil => simp [lookupAuth] at hlook
      | cons _ _ => rfl
    obtain ⟨c1, h5, _⟩ := procNS_cluster m nss c
    rw [renew_shape_run ecrFn cfg key c nss m c1 hntp hne h3 h4 h5]
    refine ⟨tok, hecr, ?_⟩
    have hpost := procNS_post m nss c ns hns K "true" hlab (by simp [hmatch]) tok hlook
    rw [h5] at hpost
    exact findSec_of_writtenOK hpost

theorem c1_witness :
    ((renewECRImagePullSecrets clusterK exEcrFn exCfg allNamespacesKey exCluster).err =
      none) ∧
    ∃ tok : AuthData,
      exEcrFn (lookupData exCredsSecret.data "aws_region")
        (lookupData exCredsSecret.data "aws_access_key_id")
        (lookupData exCredsSecret.data "aws_secret_access_key") = .ok tok ∧
      findSec (renewECRImagePullSecrets clusterK exEcrFn exCfg allNamespacesKey
        exCluster).st.secrets exNS1.name ecr1 = some (mkPull exNS1.name ecr1 tok) :=
  ⟨rfl, c1_pull_secret_materialized exCluster exEcrFn exCfg allNamespacesKey exNS1 ecr1
    exCredsSecret (by decide) rfl (by decide) (by decide) rfl (Or.inl rfl) rfl⟩

/-- C6: the reconciliation never writes a pull secret at a slot (n, k)
that no stored namespace justifies: when no namespace named n is Active
and carries label k with value exactly "true" (and k matching the
pattern), the stored secret at (n, k) is unchanged; moreover every
namespace in the candidate set is Active and carries a matching label
with value "true" (non-Active namespaces and non-"true" values are
excluded from the candidate set entirely). -/
theorem c6_never_writes_unjustified_slots (c : Cluster)
    (ecrFn : String → String → String → Except Err AuthData) (cfg : Config)
    (key : String) (n k : String)
    (hnever : ∀ ns ∈ c.namespaces, ¬(ns.name = n ∧ ns.phase = namespaceActive ∧
      (k, "true") ∈ ns.labels ∧ labelKeyMatch k = true)) :
    findSec (renewECRImagePullSecrets clusterK ecrFn cfg key c).st.secrets n k =
      findSec c.secrets n k ∧
    (∀ nss, getNamespacesToProcess clusterK c key = .ok nss → ∀ ns ∈ nss,
      ns.phase = namespaceActive ∧
        ∃ kv ∈ ns.labels, labelKeyMatch kv.1 = true ∧ kv.2 = "true") := by
  constructor
  · cases hntp : getNamespacesToProcess clusterK c key with
    | error e => rw [renew_shape_ntp_err ecrFn cfg key c e hntp]
    | ok nss =>
      cases hemp : nss.isEmpty with
      | true => rw [renew_shape_empty ecrFn cfg key c nss hntp hemp]
      | false =>
        cases h3 : createECRAuthTokenData (clusterK.getSecret c) ecrFn cfg
            (getDistinctSecretNames nss) with
        | error e => rw [renew_shape_tok_err ecrFn cfg key c nss e hntp hemp h3]
        | ok m =>
          cases h4 : m.isEmpty with
          | true => rw [renew_shape_tok_empty ecrFn cfg key c nss m hntp hemp h3 h4]
          | false =>
            obtain ⟨c1, h5, _⟩ := procNS_cluster m nss c
            rw [renew_shape_run ecrFn cfg key c nss m c1 hntp hemp h3 h4 h5]
            have hunt := procNS_untouched m nss c n k ?_
            · rwa [h5] at hunt
            · intro ns hns
              rintro ⟨h1, h2, h3l⟩
              obtain ⟨hmem, hcand⟩ := getNTP_ok_sub c key nss hntp ns hns
              exact hnever ns hmem ⟨h1, (nsIsCandidate_elim ns hcand).1, h3l, h2⟩
  · intro nss hntp ns hns
    exact nsIsCandidate_elim ns (getNTP_ok_sub c key nss hntp ns hns).2

theorem c6_witness :
    (∀ ns ∈ exCluster.namespaces, ¬(ns.name = "ns-1" ∧ ns.phase = namespaceActive ∧
      (ecr2, "true") ∈ ns.labels ∧ labelKeyMatch ecr2 = true)) ∧
    findSec (renewECRImagePullSecrets clusterK exEcrFn exCfg allNamespacesKey
      exCluster).st.secrets "ns-1" ecr2 = findSec exCluster.secrets "ns-1" ecr2 :=
  ⟨by decide,
   (c6_never_writes_unjustified_slots exCluster exEcrFn exCfg allNamespacesKey "ns-1" ecr2
     (by decide)).1⟩

/-- C5 counterexample: for the sentinel key on a cluster with no
candidate namespaces, renew succeeds but secret_renewals_total increases
by 0, not by exactly 1 per call as claimed (the early return on an empty
candidate set precedes the counter increment). -/
theorem c5_counterexample :
    (renewECRImagePullSecrets clusterK exEcrFn exCfg allNamespacesKey
      { namespaces := [], secrets := [] }).err = none ∧
    (renewECRImagePullSecrets clusterK exEcrFn exCfg allNamespacesKey
      { namespaces := [], secrets := [] }).renewalsInc = 0 :=
  ⟨rfl, rfl⟩

/-- C5 (amended): a second reconciliation run on the state left by a
successful first run with the same inputs succeeds, leaves the cluster
state exactly as it was, and produces the very same counter increments
(the same secrets_created_total events and the same
secret_renewals_total increment — which is 1 for a sentinel run reaching
materialization and 0 when the run early-exits). -/
theorem c5_second_run_idempotent (c : Cluster)
    (ecrFn : String → String → String → Except Err AuthData) (cfg : Config)
    (key : String)
    (h1 : (renewECRImagePullSecrets clusterK ecrFn cfg key c).err = none) :
    renewECRImagePullSecrets clusterK ecrFn cfg key
        ((renewECRImagePullSecrets clusterK ecrFn cfg key c).st) =
      ⟨(renewECRImagePullSecrets clusterK ecrFn cfg key c).st,
       (renewECRImagePullSecrets clusterK ecrFn cfg key c).secretsIncs,
       (renewECRImagePullSecrets clusterK ecrFn cfg key c).renewalsInc, none⟩ := by
  cases hntp : getNamespacesToProcess clusterK c key with
  | error e =>
    rw [renew_shape_ntp_err ecrFn cfg key c e hntp] at h1
    simp at h1
  | ok nss =>
    cases hemp : nss.isEmpty with
    | true =>
      have hshape := renew_shape_empty ecrFn cfg key c nss hntp hemp
      rw [hshape]
      exact hshape
    | false =>
      cases h3 : createECRAuthTokenData (clusterK.getSecret c) ecrFn cfg
          (getDistinctSecretNames nss) with
      | error e =>
        rw [renew_shape_tok_err ecrFn cfg key c nss e hntp hemp h3] at h1
        simp at h1
      | ok m =>
        cases h4 : m.isEmpty with
        | true =>
          have hshape := renew_shape_tok_empty ecrFn cfg key c nss m hntp hemp h3 h4
          rw [hshape]
          exact hshape
        | false =>
          obtain ⟨c1, h5, hns1⟩ := procNS_cluster m nss c
          have hshape := renew_shape_run ecrFn cfg key c nss m c1 hntp hemp h3 h4 h5
          rw [hshape]
          have hntp2 : getNamespacesToProcess clusterK c1 key = .ok nss :=
            getNTP_congr c c1 key nss hns1 hntp
          have hnames : ∀ n2 ∈ getDistinctSecretNames nss,
              clusterK.getSecret c1 cfg.HostNamespace (credsSecretName cfg n2) =
              clusterK.getSecret c cfg.HostNamespace (credsSecretName cfg n2) := by
            intro n2 hn2
            apply clusterK_getSecret_congr
            have hfu := procNS_untouched m nss c cfg.HostNamespace
              (credsSecretName cfg n2) ?_
            · rwa [h5] at hfu
            · intro ns hns
              rintro ⟨_, hmk, _⟩
              rw [credsSecretName_no_match cfg n2
                (labelKeyMatch_of_mem_getDistinctSecretNames n2 nss hn2)] at hmk
              cases hmk
          have h3b : createECRAuthTokenData (clusterK.getSecret c1) ecrFn cfg
              (getDistinctSecretNames nss) = .ok m := by
            rw [tokenData_congr (clusterK.getSecret c1) (clusterK.getSecret c) ecrFn cfg
              (getDistinctSecretNames nss) hnames]
            exact h3
          have h5b : processNamespaces clusterK m nss c1 = (c1, writePairs m nss, none) := by
            apply procNS_noop
            intro ns hns lk lv hlabmem hsel tok hm
            have hpost := procNS_post m nss c ns hns lk lv hlabmem hsel tok hm
            rwa [h5] at hpost
          exact renew_shape_run ecrFn cfg key c1 nss m c1 hntp2 hemp h3b h4 h5b

theorem c5_witness :
    ((renewECRImagePullSecrets clusterK exEcrFn exCfg allNamespacesKey exCluster).err =
      none) ∧
    renewECRImagePullSecrets clusterK exEcrFn exCfg allNamespacesKey
        ((renewECRImagePullSecrets clusterK exEcrFn exCfg allNamespacesKey exCluster).st) =
      ⟨(renewECRImagePullSecrets clusterK exEcrFn exCfg allNamespacesKey exCluster).st,
       (renewECRImagePullSecrets clusterK exEcrFn exCfg allNamespacesKey
         exCluster).secretsIncs,
       (renewECRImagePullSecrets clusterK exEcrFn exCfg allNamespacesKey
         exCluster).renewalsInc, none⟩ :=
  ⟨rfl, c5_second_run_idempotent exCluster exEcrFn exCfg allNamespacesKey rfl⟩

theorem c9_witness :
    (("444456781111" : String).data.length = 12 ∧
      ("ap-southeast-2" : String).data =
        'a' :: 'p' :: '-' :: ("southeast".data ++ '-' :: ['2'])) ∧
    labelKeyMatch ("444456781111" ++ ".dkr.ecr." ++ "ap-southeast-2" ++
      ".amazonaws.com") = true :=
  ⟨⟨by decide, by decide⟩,
   c9_region_shape_matches "444456781111" "ap-southeast-2" 'a' 'p' '2' "southeast".data
     (by decide) (by decide) (by decide) (by decide) (by decide) (by decide) (by decide)
     (by decide)⟩

end Eatr
